import Mathlib

/-!
Relational operators on affine arithmetic decision diagrams.

A shallow embedding of `aadd_relational.cpp` (class methods `AADD::Compare`,
`AADD::operator<=`, `<`, `>=`, `>`, `==`, `!=`, and `BDD::operator==`, `!=`).

Conventions of the embedding.

* A C++ `double` is an exact rational number (`ℚ`); the literals `1e-10` and
  `1e-20` are the rationals `1/10^10` and `1/10^20`.
* A `BDDNode*` is a value of `Ptr = Option BDDNode`; `none` is `NULL`.  Every
  node carries the address it was allocated at, and the C++ pointer comparison
  `T==E` is the comparison of the two addresses.  The canonical terminals
  returned by `ZERO()` and `ONE()` live at the addresses `0` and `1`; the
  `k`-th node allocated by `new BDDNode` lives at address `k + 2`.
* The collaborators that are declared in `aadd.h` and `aadd_lp_glpk.h` (the
  affine forms, the condition manager, the LP solver, the boolean apply
  operations and diagram subtraction) are the fields of a `Collab` record.
* The mutable program state is threaded explicitly: the condition manager and
  the number of `BDDNode` objects allocated so far.  Storage release
  (`delete`) is not tracked.
* The call `solve_lp(tmp, constraints)` returns its bounds by value and
  `Compare` uses them as they come, without looking at any status: whatever
  the solver hands back, also when it has found the constraints infeasible,
  is a `some bounds`.  The outcome `none` of the solver stands for a call that
  does not return to `Compare` at all; it then yields `none` in the first
  component of the result, while `some p` is a normal return of the pointer `p`.
* A value diagram is given by its unfolding from the root: `Compare` keeps no
  table of visited nodes, so a node shared by several parents is traversed
  once per path, and it appears once per path in `AADDNode`.  Where the
  sharing matters, equal subdiagrams are taken to be one shared node.
-/

namespace AADDRel

/-- Bounds delivered by the LP solver (`opt_sol` of `aadd_lp_glpk.h`). -/
structure opt_sol where
  min : ℚ
  max : ℚ
deriving DecidableEq, Repr

/-- A path constraint: a condition and the sign it is assumed with. -/
structure constraint (AAF : Type) where
  con : AAF
  sign : Char
deriving DecidableEq, Repr

/-- A node of a value diagram, seen from `Compare`: a leaf with its affine
form (`isLeaf`, `getValue`), or an internal node with its index, its branch
condition and its two children (`getIndex`, `getCond`, `getT`, `getF`).  The
diagram is unfolded from the root: a node that several parents share stands
once under each of them, which is how `Compare` walks it. -/
inductive AADDNode (AAF : Type) where
  | leaf (value : AAF) : AADDNode AAF
  | node (index : Nat) (cond : AAF) (T F : AADDNode AAF) : AADDNode AAF
deriving DecidableEq, Repr

/-- A node of a boolean diagram together with the address it is stored at. -/
inductive BDDNode where
  | leaf (addr : Nat) (value : Bool) : BDDNode
  | node (addr : Nat) (index : Nat) (T F : BDDNode) : BDDNode
deriving DecidableEq, Repr

/-- The address of a node: what a `BDDNode*` pointing to it compares by. -/
def BDDNode.addr : BDDNode → Nat
  | .leaf a _ => a
  | .node a _ _ _ => a

/-- A `BDDNode*`; `none` is the null pointer. -/
abbrev Ptr := Option BDDNode

/-- Modelled from the spec: the canonical terminal for boolean `false`
(`ZERO()` of `aadd.h`), a singleton at a fixed address. -/
def ZERO : BDDNode := .leaf 0 false

/-- Modelled from the spec: the canonical terminal for boolean `true`
(`ONE()` of `aadd.h`), a singleton at a fixed address distinct from `ZERO`. -/
def ONE : BDDNode := .leaf 1 true

/-- The mutable state `Compare` works on: the condition manager and the number
of `BDDNode` objects created with `new` so far. -/
structure State (Mgr : Type) where
  mgr : Mgr
  allocated : Nat

/-- The binary boolean operations `ApplyBinOp` is called with. -/
inductive BinOp where
  | And
  | Or
  | Xor
deriving DecidableEq, Repr

/-- A value diagram object (`AADD`), reduced to its root. -/
structure AADD (AAF : Type) where
  root : AADDNode AAF

/-- A boolean diagram object (`BDD`), reduced to its root pointer. -/
structure BDD where
  root : Ptr
deriving DecidableEq, Repr

/-- The collaborators of the relational operators, none of which is defined
in `aadd_relational.cpp`. -/
structure Collab (AAF Mgr : Type) where
  /-- The comparison `tmp==threshold` of an affine form with a double. -/
  eqDouble : AAF → ℚ → Bool
  /-- The conversion `AAF temp=threshold`. -/
  ofDouble : ℚ → AAF
  /-- The difference `tmp-temp` of two affine forms. -/
  sub : AAF → AAF → AAF
  /-- The solver `solve_lp(tmp, constraints)`; `none` when it delivers no bounds. -/
  solve_lp : AAF → List (constraint AAF) → Option opt_sol
  /-- The registration `condMgr().addCond(cond)`: the index and the new manager. -/
  addCond : Mgr → AAF → Nat × Mgr
  /-- The diagram difference `(*this)-right`. -/
  minus : AADD AAF → AADD AAF → AADD AAF
  /-- The boolean apply `ApplyBinOp(op, a, b)`. -/
  ApplyBinOp : BinOp → Ptr → Ptr → State Mgr → Ptr × State Mgr
  /-- The negation `!d` of a boolean diagram. -/
  bddNot : BDD → State Mgr → BDD × State Mgr
  /-- The exclusive or `a xor b` of two boolean diagrams. -/
  bddXor : BDD → BDD → State Mgr → BDD × State Mgr

/-- The absolute value `fabs` of `math.h`. -/
def fabs (x : ℚ) : ℚ := if x < 0 then -x else x

/-- The literal `1e-20` guarding the two bound tests of `Compare`, as the
decimal it is written as (the nearest double is smaller by about `5.5e-37`). -/
def eps20 : ℚ := 1 / 10 ^ 20

/-- The literal `1e-10` of the operators `<=`, `>` and `==`. -/
def eps10 : ℚ := 1 / 10 ^ 10

/-- The expression `new BDDNode(index, T, E)`: the node is placed at a fresh
address and the allocation is counted. -/
def newBDDNode {Mgr : Type} (index : Nat) (T E : BDDNode) (s : State Mgr) :
    BDDNode × State Mgr :=
  (.node (s.allocated + 2) index T E, { s with allocated := s.allocated + 1 })

/-- The assignment `constraints.back().sign = c`. -/
def setBackSign {AAF : Type} : List (constraint AAF) → Char → List (constraint AAF)
  | [], _ => []
  | [x], c => [{ x with sign := c }]
  | x :: y :: rest, c => x :: setBackSign (y :: rest) c

/-- The first bound test of `Compare`: the maximum is below the threshold and
not within `1e-20` of it. -/
def below (bounds : opt_sol) (threshold : ℚ) : Prop :=
  bounds.max < threshold ∧ ¬ (fabs (bounds.max - threshold) < eps20)

/-- The second bound test of `Compare`: the minimum is above the threshold or
within `1e-20` of it. -/
def atOrAbove (bounds : opt_sol) (threshold : ℚ) : Prop :=
  bounds.min > threshold ∨ fabs (bounds.min - threshold) < eps20

instance (bounds : opt_sol) (threshold : ℚ) : Decidable (below bounds threshold) := by
  unfold below; infer_instance

instance (bounds : opt_sol) (threshold : ℚ) : Decidable (atOrAbove bounds threshold) := by
  unfold atOrAbove; infer_instance

/-- The leaf case of `AADD::Compare` (the body of `if (f->isLeaf())`),
for a leaf holding the affine form `tmp`.  The bounds are used as the solver
returns them, no status being looked at; the outcome `none` of the solver, a
call that does not return, has no counterpart in the source and here ends
the computation. -/
def CompareLeaf {AAF Mgr : Type} (X : Collab AAF Mgr) (tmp : AAF) (threshold : ℚ)
    (constraints : List (constraint AAF)) (op : String) (s : State Mgr) :
    Option Ptr × State Mgr :=
  if op = "==" then
    if X.eqDouble tmp threshold then (some (some ONE), s) else (some (some ZERO), s)
  else
    match X.solve_lp tmp constraints with
    | none => (none, s)
    | some bounds =>
      if below bounds threshold then
        if op = "<=" ∨ op = "<" then (some (some ONE), s) else (some (some ZERO), s)
      else if atOrAbove bounds threshold then
        if op = "<=" ∨ op = "<" then (some (some ZERO), s) else (some (some ONE), s)
      else
        let temp := X.ofDouble threshold
        let cond := X.sub tmp temp
        let r := X.addCond s.mgr cond
        let s1 : State Mgr := { s with mgr := r.2 }
        if op = "<=" ∨ op = "<" then
          let res := newBDDNode r.1 ZERO ONE s1
          (some (some res.1), res.2)
        else
          let res := newBDDNode r.1 ONE ZERO s1
          (some (some res.1), res.2)

/-- The method `AADD::Compare`: the leaf case, and the recursive step over the
two children of an internal node with the path constraint pushed with sign
`+` for the true child and switched to `-` for the false child. -/
def Compare {AAF Mgr : Type} (X : Collab AAF Mgr) :
    AADDNode AAF → ℚ → List (constraint AAF) → String → State Mgr → Option Ptr × State Mgr
  | .leaf tmp, threshold, constraints, op, s => CompareLeaf X tmp threshold constraints op s
  | .node index cond fT fF, threshold, constraints, op, s =>
    let constraints1 := constraints ++ [{ con := cond, sign := '+' }]
    match Compare X fT threshold constraints1 op s with
    | (none, s1) => (none, s1)
    | (some none, s1) => (some none, s1)
    | (some (some T), s1) =>
      let constraints2 := setBackSign constraints1 '-'
      match Compare X fF threshold constraints2 op s1 with
      | (none, s2) => (none, s2)
      | (some none, s2) => (some none, s2)
      | (some (some E), s2) =>
        if T.addr = E.addr then (some (some T), s2)
        else
          let res := newBDDNode index T E s2
          (some (some res.1), res.2)

/-- The tail shared by the four order operators: `r->setRoot(...)` on a new
`BDD` and `return (*r)`. -/
def wrapRoot {Mgr : Type} (r : Option Ptr × State Mgr) : Option BDD × State Mgr :=
  match r with
  | (none, s1) => (none, s1)
  | (some p, s1) => (some { root := p }, s1)

/-- The operator `AADD::operator<=`. -/
def AADD.operator_le {AAF Mgr : Type} (X : Collab AAF Mgr) (self right : AADD AAF)
    (s : State Mgr) : Option BDD × State Mgr :=
  let temp := X.minus self right
  let cons : List (constraint AAF) := []
  let ths : ℚ := 0 + eps10
  wrapRoot (Compare X temp.root ths cons "<=" s)

/-- The operator `AADD::operator<`. -/
def AADD.operator_lt {AAF Mgr : Type} (X : Collab AAF Mgr) (self right : AADD AAF)
    (s : State Mgr) : Option BDD × State Mgr :=
  let diff := X.minus self right
  let cons : List (constraint AAF) := []
  wrapRoot (Compare X diff.root 0 cons "<" s)

/-- The operator `AADD::operator>=`. -/
def AADD.operator_ge {AAF Mgr : Type} (X : Collab AAF Mgr) (self right : AADD AAF)
    (s : State Mgr) : Option BDD × State Mgr :=
  let temp := X.minus self right
  let cons : List (constraint AAF) := []
  wrapRoot (Compare X temp.root 0 cons ">=" s)

/-- The operator `AADD::operator>`. -/
def AADD.operator_gt {AAF Mgr : Type} (X : Collab AAF Mgr) (self right : AADD AAF)
    (s : State Mgr) : Option BDD × State Mgr :=
  let temp := X.minus self right
  let cons : List (constraint AAF) := []
  let ths : ℚ := 0 + eps10
  wrapRoot (Compare X temp.root ths cons ">" s)

/-- The operator `AADD::operator==`: the conjunction of `diff >= 0` and
`diff <= 1e-10`. -/
def AADD.operator_eq {AAF Mgr : Type} (X : Collab AAF Mgr) (self right : AADD AAF)
    (s : State Mgr) : Option BDD × State Mgr :=
  let diff := X.minus self right
  let cons : List (constraint AAF) := []
  match Compare X diff.root 0 cons ">=" s with
  | (none, s1) => (none, s1)
  | (some Temp, s1) =>
    match Compare X diff.root eps10 cons "<=" s1 with
    | (none, s2) => (none, s2)
    | (some Temp1, s2) =>
      let r := X.ApplyBinOp BinOp.And Temp Temp1 s2
      (some { root := r.1 }, r.2)

/-- The operator `AADD::operator!=`: the negation of `operator==`. -/
def AADD.operator_ne {AAF Mgr : Type} (X : Collab AAF Mgr) (self right : AADD AAF)
    (s : State Mgr) : Option BDD × State Mgr :=
  match AADD.operator_eq X self right s with
  | (none, s1) => (none, s1)
  | (some d, s1) =>
    let r := X.bddNot d s1
    (some r.1, r.2)

/-- The operator `BDD::operator==`: the negation of the exclusive or. -/
def BDD.operator_eq {AAF Mgr : Type} (X : Collab AAF Mgr) (self right : BDD)
    (s : State Mgr) : BDD × State Mgr :=
  let r := X.bddXor self right s
  X.bddNot r.1 r.2

/-- The operator `BDD::operator!=`: the exclusive or. -/
def BDD.operator_ne {AAF Mgr : Type} (X : Collab AAF Mgr) (self right : BDD)
    (s : State Mgr) : BDD × State Mgr :=
  X.bddXor self right s

/-! ## Auxiliary notions used to state the properties -/

/-- The calls `solve_lp(leaf, constraints)` that `Compare` issues when every
call delivers bounds: one per leaf, left to right, each with the constraints
accumulated along its path. -/
def leafCalls {AAF : Type} :
    AADDNode AAF → List (constraint AAF) → List (AAF × List (constraint AAF))
  | .leaf v, c => [(v, c)]
  | .node _ cond T F, c =>
    leafCalls T (c ++ [{ con := cond, sign := '+' }]) ++
      leafCalls F (setBackSign (c ++ [{ con := cond, sign := '+' }]) '-')

/-- The affine forms at the leaves of a value diagram. -/
def AADDNode.leaves {AAF : Type} : AADDNode AAF → List AAF
  | .leaf v => [v]
  | .node _ _ T F => T.leaves ++ F.leaves

/-- No internal node of the diagram has the same object as both children. -/
def BDDNode.reduced : BDDNode → Prop
  | .leaf _ _ => True
  | .node _ _ T F => T.addr ≠ F.addr ∧ T.reduced ∧ F.reduced

/-- The diagram with the canonical terminals exchanged, internal nodes kept
in place. -/
def BDDNode.neg : BDDNode → BDDNode
  | .leaf _ v => if v then ZERO else ONE
  | .node a i T F => .node a i T.neg F.neg

/-- Terminal exchange on a boolean diagram object. -/
def BDD.neg (d : BDD) : BDD := { root := d.root.map BDDNode.neg }

/-- The shape `Compare` builds: terminals are the canonical ones and internal
nodes sit at addresses handed out by `new`, below the bound `n`. -/
def BDDNode.placed : BDDNode → Nat → Prop
  | .leaf a v, _ => (a = 0 ∧ v = false) ∨ (a = 1 ∧ v = true)
  | .node a _ T F, n => 2 ≤ a ∧ a < n + 2 ∧ T.placed n ∧ F.placed n

/-- What `Compare` maintains: the allocation count only grows; the result is
never the null pointer; a returned diagram is built from the canonical
terminals and from nodes handed out by `new`, has no node with identical
children, and, when it is not a terminal, its root was allocated during the
call. -/
def CompareInv {Mgr : Type} (s : State Mgr) (r : Option Ptr × State Mgr) : Prop :=
  s.allocated ≤ r.2.allocated ∧ r.1 ≠ some none ∧
  ∀ n, r.1 = some (some n) →
    n.placed r.2.allocated ∧ n.reduced ∧ (n.addr < 2 ∨ s.allocated + 2 ≤ n.addr)

/-- The leaf call meets solver bounds that pass neither bound test of `Compare`. -/
def straddles {AAF Mgr : Type} (X : Collab AAF Mgr) (t : ℚ)
    (p : AAF × List (constraint AAF)) : Bool :=
  match X.solve_lp p.1 p.2 with
  | some b => decide (¬ below b t ∧ ¬ atOrAbove b t)
  | none => false

/-- The residual conditions `leafValue - threshold` of the straddling leaves,
in the order the leaves are visited. -/
def registered {AAF Mgr : Type} (X : Collab AAF Mgr) (f : AADDNode AAF) (t : ℚ)
    (c : List (constraint AAF)) : List AAF :=
  ((leafCalls f c).filter (straddles X t)).map (fun p => X.sub p.1 (X.ofDouble t))

/-- Number of internal nodes of a boolean diagram. -/
def BDDNode.internalCount : BDDNode → Nat
  | .leaf _ _ => 0
  | .node _ _ T F => 1 + T.internalCount + F.internalCount

/-- Number of leaves of a value diagram, a shared leaf counted once per path
from the root. -/
def AADDNode.leafCount {AAF : Type} : AADDNode AAF → Nat
  | .leaf _ => 1
  | .node _ _ T F => T.leafCount + F.leafCount

/-- Number of internal nodes of a value diagram, a shared node counted once
per path from the root. -/
def AADDNode.internalCount {AAF : Type} : AADDNode AAF → Nat
  | .leaf _ => 0
  | .node _ _ T F => 1 + T.internalCount + F.internalCount

/-- The structure of a boolean diagram with the addresses left out. -/
inductive Shape where
  | const (value : Bool) : Shape
  | branch (index : Nat) (T F : Shape) : Shape
deriving DecidableEq, Repr

/-- The structure of a boolean diagram: what two distinct but structurally
equal diagrams have in common. -/
def BDDNode.shape : BDDNode → Shape
  | .leaf _ v => .const v
  | .node _ i T F => .branch i T.shape F.shape

/-- The solver calls in the words of the specification: each leaf with the
caller's constraints followed, from the root down, by one pair per internal
node on its path, signed `+` through a true child and `-` through a false child. -/
def pathCalls {AAF : Type} :
    AADDNode AAF → List (constraint AAF) → List (AAF × List (constraint AAF))
  | .leaf v, c => [(v, c)]
  | .node _ cond T F, c =>
    pathCalls T (c ++ [{ con := cond, sign := '+' }]) ++
      pathCalls F (c ++ [{ con := cond, sign := '-' }])

/-- The depths of the leaves of a value diagram, left to right. -/
def leafDepths {AAF : Type} : AADDNode AAF → List Nat
  | .leaf _ => [0]
  | .node _ _ T F => (leafDepths T).map (fun d => d + 1) ++ (leafDepths F).map (fun d => d + 1)

/-- The function a boolean diagram denotes: the terminal value reached under
an assignment of truth values to the condition indices. -/
def BDDNode.eval : BDDNode → (Nat → Bool) → Bool
  | .leaf _ v, _ => v
  | .node _ i T F, ρ => if ρ i then T.eval ρ else F.eval ρ

/-- The test `isLeaf()` of a value diagram node. -/
def AADDNode.isLeaf {AAF : Type} : AADDNode AAF → Bool
  | .leaf _ => true
  | .node _ _ _ _ => false

/-- The nodes of a value diagram as met from the root, a shared node once per path. -/
def AADDNode.subdiagrams {AAF : Type} : AADDNode AAF → List (AADDNode AAF)
  | .leaf v => [.leaf v]
  | .node i cond T F => .node i cond T F :: (T.subdiagrams ++ F.subdiagrams)

/-- Number of distinct leaves of a value diagram whose equal subdiagrams are
one shared node. -/
def AADDNode.distinctLeafCount {AAF : Type} [DecidableEq AAF] (f : AADDNode AAF) : Nat :=
  ((f.subdiagrams.filter AADDNode.isLeaf).dedup).length

/-- Number of distinct internal nodes of a value diagram whose equal
subdiagrams are one shared node. -/
def AADDNode.distinctInternalCount {AAF : Type} [DecidableEq AAF] (f : AADDNode AAF) : Nat :=
  ((f.subdiagrams.filter (fun g => !g.isLeaf)).dedup).length

/-! ## A concrete instance for worked examples -/

/-- An interval with its two end points, standing for an affine form by its range. -/
structure Ival where
  lo : ℚ
  hi : ℚ
deriving DecidableEq, Repr

/-- Registration in a list-backed condition manager: an equal entry is reused,
a new one is appended. -/
def listAddCond (m : List Ival) (c : Ival) : Nat × List Ival :=
  if m.indexOf c < m.length then (m.indexOf c, m) else (m.length, m ++ [c])

/-- Leafwise difference `a - g` of an interval and a value diagram. -/
def ivalMinusLeaf (a : Ival) : AADDNode Ival → AADDNode Ival
  | .leaf b => .leaf ⟨a.lo - b.hi, a.hi - b.lo⟩
  | .node i c T F => .node i c (ivalMinusLeaf a T) (ivalMinusLeaf a F)

/-- The part of a value diagram that remains once the condition of index `i`
is known to hold (`b = true`) or to fail (`b = false`). -/
def restrict (i : Nat) (b : Bool) : AADDNode Ival → AADDNode Ival
  | .leaf v => .leaf v
  | .node j c T F =>
    if j = i then (if b then restrict i b T else restrict i b F)
    else .node j c (restrict i b T) (restrict i b F)

/-- Difference of two value diagrams over intervals: the decisions of the
first operand are followed, the second operand restricted accordingly. -/
def ivalMinus : AADDNode Ival → AADDNode Ival → AADDNode Ival
  | .leaf a, g => ivalMinusLeaf a g
  | .node i c T F, g =>
    .node i c (ivalMinus T (restrict i true g)) (ivalMinus F (restrict i false g))

/-- The canonical terminal of a boolean value. -/
def terminal (b : Bool) : BDDNode := if b then ONE else ZERO

/-- Truth table of a binary boolean operation. -/
def BinOp.eval : BinOp → Bool → Bool → Bool
  | .And, x, y => x && y
  | .Or, x, y => x || y
  | .Xor, x, y => x != y

/-- Pointwise image of a boolean diagram under a unary boolean function,
rebuilt with fresh nodes and with identical children collapsed. -/
def mapTerminals {Mgr : Type} (g : Bool → Bool) : BDDNode → State Mgr → BDDNode × State Mgr
  | .leaf _ v, s => (terminal (g v), s)
  | .node _ i T F, s =>
    let t := mapTerminals g T s
    let e := mapTerminals g F t.2
    if t.1.addr = e.1.addr then (t.1, e.2) else newBDDNode i t.1 e.1 e.2

/-- Pointwise combination of two boolean diagrams: the decisions of the first
operand are taken before those of the second. -/
def applyNodes {Mgr : Type} (g : Bool → Bool → Bool) :
    BDDNode → BDDNode → State Mgr → BDDNode × State Mgr
  | .leaf _ v, b, s => mapTerminals (g v) b s
  | .node _ i T F, b, s =>
    let t := applyNodes g T b s
    let e := applyNodes g F b t.2
    if t.1.addr = e.1.addr then (t.1, e.2) else newBDDNode i t.1 e.1 e.2

/-- Pointwise combination on pointers; a null operand gives a null result. -/
def applyPtr {Mgr : Type} (g : Bool → Bool → Bool) (a b : Ptr) (s : State Mgr) :
    Ptr × State Mgr :=
  match a, b with
  | some x, some y => let r := applyNodes g x y s; (some r.1, r.2)
  | _, _ => (none, s)

/-- Collaborators over intervals: the solver returns the end points of the
interval whatever the constraints and delivers nothing for an empty interval
(`hi < lo`); the condition manager is a list; the boolean operations are the
pointwise ones. -/
def ivalCollab : Collab Ival (List Ival) where
  eqDouble v t := decide (v.lo = t ∧ v.hi = t)
  ofDouble t := ⟨t, t⟩
  sub a b := ⟨a.lo - b.hi, a.hi - b.lo⟩
  solve_lp v _ := if v.lo ≤ v.hi then some ⟨v.lo, v.hi⟩ else none
  addCond := listAddCond
  minus a b := ⟨ivalMinus a.root b.root⟩
  ApplyBinOp op a b s := applyPtr op.eval a b s
  bddNot d s :=
    match d.root with
    | some x => let r := mapTerminals (fun v => !v) x s; (⟨some r.1⟩, r.2)
    | none => (⟨none⟩, s)
  bddXor a b s := let r := applyPtr BinOp.Xor.eval a.root b.root s; (⟨r.1⟩, r.2)

/-- The initial state of the examples: an empty condition manager, no node allocated. -/
def s0 : State (List Ival) := ⟨[], 0⟩

/-- A scalar as a one-leaf value diagram. -/
def scalar (x : ℚ) : AADD Ival := ⟨.leaf ⟨x, x⟩⟩

/-- An uncertain value of range `[lo, hi]` as a one-leaf value diagram. -/
def range (lo hi : ℚ) : AADD Ival := ⟨.leaf ⟨lo, hi⟩⟩

/-- A two-leaf value diagram for the examples: `1` when the condition of index
`0` holds and `2` when it fails. -/
def twoLeaves : AADD Ival :=
  ⟨.node 0 ⟨-1, 1⟩ (.leaf ⟨1, 1⟩) (.leaf ⟨2, 2⟩)⟩

/-- A value diagram with an uncertain true branch of range `[-1, 1]` and the
scalar `2` on the false branch. -/
def mixedBranches : AADD Ival :=
  ⟨.node 0 ⟨-1, 1⟩ (.leaf ⟨-1, 1⟩) (.leaf ⟨2, 2⟩)⟩

/-- A value diagram whose two leaves carry the same uncertain value of range `[-1, 1]`. -/
def sameLeaves : AADD Ival :=
  ⟨.node 0 ⟨-1, 1⟩ (.leaf ⟨-1, 1⟩) (.leaf ⟨-1, 1⟩)⟩

/-- A solver for the examples that gives up on constraint sets longer than one. -/
def shallowSolve (v : Ival) (cs : List (constraint Ival)) : Option opt_sol :=
  if cs.length ≤ 1 then ivalCollab.solve_lp v cs else none

/-- A value diagram with a shared leaf: the uncertain value `[-1, 1]` is the
true child of the root and of the inner node; the other leaf is `[-2, 2]`. -/
def sharedLeaf : AADD Ival :=
  ⟨.node 0 ⟨-1, 1⟩ (.leaf ⟨-1, 1⟩) (.node 1 ⟨-2, 2⟩ (.leaf ⟨-1, 1⟩) (.leaf ⟨-2, 2⟩))⟩

/-! ## Properties -/

theorem eps20_pos : 0 < eps20 := by unfold eps20; norm_num

theorem eps20_lt_eps10 : eps20 < eps10 := by unfold eps20 eps10; norm_num

theorem fabs_lt_iff (x e : ℚ) : fabs x < e ↔ -e < x ∧ x < e := by
  unfold fabs
  split_ifs with h
  · constructor
    · intro h1; constructor <;> linarith
    · intro h1; linarith
  · constructor
    · intro h1; constructor <;> linarith
    · intro h1; linarith

/-- The first bound test in closed form. -/
theorem below_iff (b : opt_sol) (t : ℚ) : below b t ↔ b.max ≤ t - eps20 := by
  unfold below
  rw [fabs_lt_iff]
  have := eps20_pos
  constructor
  · rintro ⟨h1, h2⟩
    by_contra h3
    exact h2 ⟨by linarith, by linarith⟩
  · intro h1
    exact ⟨by linarith, fun h2 => by linarith [h2.1]⟩

/-- The second bound test in closed form. -/
theorem atOrAbove_iff (b : opt_sol) (t : ℚ) : atOrAbove b t ↔ t - eps20 < b.min := by
  unfold atOrAbove
  rw [fabs_lt_iff]
  have := eps20_pos
  constructor
  · rintro (h1 | h1)
    · linarith
    · linarith [h1.1]
  · intro h1
    by_cases h2 : b.min > t
    · exact Or.inl h2
    · exact Or.inr ⟨by linarith, by linarith⟩

theorem ONE_ne_ZERO : ONE ≠ ZERO := by decide

/-- The leaf case for a solver range that is the single point `d`. -/
theorem CompareLeaf_point {AAF Mgr : Type} (X : Collab AAF Mgr) (tmp : AAF) (t d : ℚ)
    (c : List (constraint AAF)) (op : String) (s : State Mgr) (hop : op ≠ "==")
    (hb : X.solve_lp tmp c = some ⟨d, d⟩) :
    CompareLeaf X tmp t c op s =
      (some (some (if d ≤ t - eps20 then (if op = "<=" ∨ op = "<" then ONE else ZERO)
        else (if op = "<=" ∨ op = "<" then ZERO else ONE))), s) := by
  unfold CompareLeaf
  rw [if_neg hop, hb]
  simp only [below_iff, atOrAbove_iff]
  by_cases h : d ≤ t - eps20
  · simp only [if_pos h]
    split_ifs <;> rfl
  · simp only [if_neg h, if_pos (not_le.mp h)]
    split_ifs <;> rfl

/-- An order operator on a difference that is one leaf with a point range:
the call of `Compare` it makes returns the terminal chosen by the point. -/
theorem Compare_leaf_point {AAF Mgr : Type} (X : Collab AAF Mgr) (v : AAF) (t d : ℚ)
    (op : String) (s : State Mgr) (hop : op ≠ "==")
    (hb : X.solve_lp v [] = some ⟨d, d⟩) :
    wrapRoot (Compare X (.leaf v) t [] op s) =
      (some ⟨some (if d ≤ t - eps20 then (if op = "<=" ∨ op = "<" then ONE else ZERO)
        else (if op = "<=" ∨ op = "<" then ZERO else ONE))⟩, s) := by
  rw [Compare, CompareLeaf_point X v t d [] op s hop hb]
  rfl

/-- C1 (as amended): for leaf operands with scalar values `l` and `r` (the
difference is one leaf whose solver range is the point `l - r`), `<=` returns
the canonical true terminal if and only if `l <= r + 1e-10 - 1e-20`, and the
canonical false terminal if and only if not. -/
theorem C1_le_leaf_scalar {AAF Mgr : Type} (X : Collab AAF Mgr) (a b : AADD AAF) (v : AAF)
    (l r : ℚ) (s : State Mgr) (hd : X.minus a b = ⟨.leaf v⟩)
    (hb : X.solve_lp v [] = some ⟨l - r, l - r⟩) :
    (AADD.operator_le X a b s = (some ⟨some ONE⟩, s) ↔ l ≤ r + eps10 - eps20) ∧
    (AADD.operator_le X a b s = (some ⟨some ZERO⟩, s) ↔ ¬ l ≤ r + eps10 - eps20) := by
  have key := Compare_leaf_point X v (0 + eps10) (l - r) "<=" s (by decide) hb
  simp only [true_or, if_true] at key
  have hiff : l - r ≤ 0 + eps10 - eps20 ↔ l ≤ r + eps10 - eps20 := by
    constructor <;> intro h <;> linarith
  unfold AADD.operator_le
  simp only [hd, key]
  by_cases h : l ≤ r + eps10 - eps20
  · have h1 := hiff.mpr h
    simp only [if_pos h1, h, true_iff, not_true, iff_false]
    refine ⟨trivial, ?_⟩
    intro hc
    injection hc with hc1 _
    injection hc1 with hc2
    injection hc2 with hc3
    injection hc3 with hc4
    exact ONE_ne_ZERO hc4
  · have h1 : ¬ l - r ≤ 0 + eps10 - eps20 := fun h2 => h (hiff.mp h2)
    simp only [if_neg h1, h, iff_false, not_false_eq_true, iff_true]
    refine ⟨?_, trivial⟩
    intro hc
    injection hc with hc1 _
    injection hc1 with hc2
    injection hc2 with hc3
    injection hc3 with hc4
    exact ONE_ne_ZERO hc4.symm

/-- Scenario 1 of the specification: `3.0 <= 5.0` is the canonical true terminal. -/
theorem C1_le_leaf_scalar_witness :
    AADD.operator_le ivalCollab (scalar 3) (scalar 5) s0 = (some ⟨some ONE⟩, s0) :=
  (C1_le_leaf_scalar ivalCollab (scalar 3) (scalar 5) ⟨3 - 5, 3 - 5⟩ 3 5 s0 rfl
    (by simp [ivalCollab])).1.mpr (by unfold eps10 eps20; norm_num)

/-- At the boundary `l - r = 1e-10` the scalars satisfy `l <= r + 1e-10`, yet
`<=` returns the canonical false terminal. -/
theorem C1_boundary_counterexample :
    ((1 / 10 ^ 10 : ℚ) ≤ 0 + 1 / 10 ^ 10) ∧
    AADD.operator_le ivalCollab (scalar (1 / 10 ^ 10)) (scalar 0) s0
      = (some ⟨some ZERO⟩, s0) := by
  refine ⟨by norm_num, ?_⟩
  simp only [AADD.operator_le, wrapRoot, Compare, CompareLeaf, scalar, ivalCollab, ivalMinus,
    ivalMinusLeaf, below, atOrAbove, fabs, eps10, eps20]
  norm_num
  simp +decide

/-- The solver calls of a diagram are made on its leaves. -/
theorem leafCalls_fst_mem {AAF : Type} (f : AADDNode AAF) :
    ∀ (c : List (constraint AAF)) (p : AAF × List (constraint AAF)),
      p ∈ leafCalls f c → p.1 ∈ f.leaves := by
  induction f with
  | leaf v =>
    intro c p hp
    simp only [leafCalls, List.mem_singleton] at hp
    simp [AADDNode.leaves, hp]
  | node i cond T F ihT ihF =>
    intro c p hp
    simp only [leafCalls, List.mem_append] at hp
    simp only [AADDNode.leaves, List.mem_append]
    rcases hp with hp | hp
    · exact Or.inl (ihT _ p hp)
    · exact Or.inr (ihF _ p hp)

/-- When the leaf case returns the same terminal `k` at every leaf without
touching the state, every internal node collapses and `Compare` returns `k`. -/
theorem Compare_const {AAF Mgr : Type} (X : Collab AAF Mgr) (t : ℚ) (op : String)
    (k : BDDNode) (f : AADDNode AAF) :
    ∀ (c : List (constraint AAF)) (s : State Mgr),
      (∀ p ∈ leafCalls f c, ∀ s1 : State Mgr,
        CompareLeaf X p.1 t p.2 op s1 = (some (some k), s1)) →
      Compare X f t c op s = (some (some k), s) := by
  induction f with
  | leaf v =>
    intro c s h
    rw [Compare]
    exact h (v, c) (by simp [leafCalls]) s
  | node i cond T F ihT ihF =>
    intro c s h
    have hT := ihT (c ++ [{ con := cond, sign := '+' }]) s
      (fun p hp => h p (by simp only [leafCalls, List.mem_append]; exact Or.inl hp))
    have hF := ihF (setBackSign (c ++ [{ con := cond, sign := '+' }]) '-') s
      (fun p hp => h p (by simp only [leafCalls, List.mem_append]; exact Or.inr hp))
    rw [Compare]
    simp only [hT, hF, if_true]

/-- C2: reflexivity of `==`.  When the difference `a - a` carries the zero
affine form `z` at every leaf and the solver returns `min = max = 0` for `z`
under every constraint set, `Compare(diff, 0, {}, ">=")` and
`Compare(diff, 1e-10, {}, "<=")` both return the canonical true terminal
(whatever the number of internal nodes), and `a == a` is the canonical true
terminal as soon as the conjunction of two canonical true terminals is. -/
theorem C2_eq_reflexive {AAF Mgr : Type} (X : Collab AAF Mgr) (a : AADD AAF) (z : AAF)
    (s : State Mgr)
    (hz : ∀ v ∈ (X.minus a a).root.leaves, v = z)
    (hs : ∀ cs, X.solve_lp z cs = some ⟨0, 0⟩)
    (hAnd : ∀ s1, (X.ApplyBinOp BinOp.And (some ONE) (some ONE) s1).1 = some ONE) :
    Compare X (X.minus a a).root 0 [] ">=" s = (some (some ONE), s) ∧
    Compare X (X.minus a a).root eps10 [] "<=" s = (some (some ONE), s) ∧
    (AADD.operator_eq X a a s).1 = some ⟨some ONE⟩ := by
  have hge : ∀ s1 : State Mgr,
      Compare X (X.minus a a).root 0 [] ">=" s1 = (some (some ONE), s1) := by
    intro s1
    apply Compare_const
    intro p hp s2
    have hpz : p.1 = z := hz _ (leafCalls_fst_mem _ _ p hp)
    rw [CompareLeaf_point X p.1 0 0 p.2 ">=" s2 (by decide) (by rw [hpz]; exact hs _)]
    have h1 : ¬ (0 : ℚ) ≤ 0 - eps20 := by have := eps20_pos; intro h; linarith
    have h2 : ¬ (">=" = "<=" ∨ ">=" = "<") := by decide
    simp only [if_neg h1, if_neg h2]
  have hle : ∀ s1 : State Mgr,
      Compare X (X.minus a a).root eps10 [] "<=" s1 = (some (some ONE), s1) := by
    intro s1
    apply Compare_const
    intro p hp s2
    have hpz : p.1 = z := hz _ (leafCalls_fst_mem _ _ p hp)
    rw [CompareLeaf_point X p.1 eps10 0 p.2 "<=" s2 (by decide) (by rw [hpz]; exact hs _)]
    have h1 : (0 : ℚ) ≤ eps10 - eps20 := by have := eps20_lt_eps10; linarith
    simp only [if_pos h1, true_or, if_true]
  refine ⟨hge s, hle s, ?_⟩
  unfold AADD.operator_eq
  simp only [hge, hle, hAnd]

/-- Reflexivity of `==` on a diagram with an internal node. -/
theorem C2_eq_reflexive_witness :
    (AADD.operator_eq ivalCollab twoLeaves twoLeaves s0).1 = some ⟨some ONE⟩ :=
  (C2_eq_reflexive ivalCollab twoLeaves ⟨0, 0⟩ s0
    (by simp [ivalCollab, twoLeaves, ivalMinus, ivalMinusLeaf, restrict, AADDNode.leaves])
    (by intro cs; simp [ivalCollab])
    (by intro s1; rfl)).2.2

/-- The leaf case when the solver delivers no bounds. -/
theorem CompareLeaf_fail {AAF Mgr : Type} (X : Collab AAF Mgr) (tmp : AAF) (t : ℚ)
    (c : List (constraint AAF)) (op : String) (s : State Mgr) (hop : op ≠ "==")
    (hb : X.solve_lp tmp c = none) :
    CompareLeaf X tmp t c op s = (none, s) := by
  unfold CompareLeaf
  rw [if_neg hop, hb]

/-- The leaf case when the range is below the threshold. -/
theorem CompareLeaf_below {AAF Mgr : Type} (X : Collab AAF Mgr) (tmp : AAF) (t : ℚ)
    (c : List (constraint AAF)) (op : String) (s : State Mgr) (bounds : opt_sol)
    (hop : op ≠ "==") (hb : X.solve_lp tmp c = some bounds) (h1 : below bounds t) :
    CompareLeaf X tmp t c op s =
      (some (some (if op = "<=" ∨ op = "<" then ONE else ZERO)), s) := by
  unfold CompareLeaf
  rw [if_neg hop, hb]
  simp only [if_pos h1]
  split_ifs <;> rfl

/-- The leaf case when the range is at or above the threshold. -/
theorem CompareLeaf_atOrAbove {AAF Mgr : Type} (X : Collab AAF Mgr) (tmp : AAF) (t : ℚ)
    (c : List (constraint AAF)) (op : String) (s : State Mgr) (bounds : opt_sol)
    (hop : op ≠ "==") (hb : X.solve_lp tmp c = some bounds) (h1 : ¬ below bounds t)
    (h2 : atOrAbove bounds t) :
    CompareLeaf X tmp t c op s =
      (some (some (if op = "<=" ∨ op = "<" then ZERO else ONE)), s) := by
  unfold CompareLeaf
  rw [if_neg hop, hb]
  simp only [if_neg h1, if_pos h2]
  split_ifs <;> rfl

/-- The leaf case when the range straddles the threshold: the residual
condition is registered and one node is allocated over the two terminals. -/
theorem CompareLeaf_straddle {AAF Mgr : Type} (X : Collab AAF Mgr) (tmp : AAF) (t : ℚ)
    (c : List (constraint AAF)) (op : String) (s : State Mgr) (bounds : opt_sol)
    (hop : op ≠ "==") (hb : X.solve_lp tmp c = some bounds) (h1 : ¬ below bounds t)
    (h2 : ¬ atOrAbove bounds t) :
    CompareLeaf X tmp t c op s =
      (some (some (.node (s.allocated + 2) (X.addCond s.mgr (X.sub tmp (X.ofDouble t))).1
          (if op = "<=" ∨ op = "<" then ZERO else ONE)
          (if op = "<=" ∨ op = "<" then ONE else ZERO))),
        { mgr := (X.addCond s.mgr (X.sub tmp (X.ofDouble t))).2,
          allocated := s.allocated + 1 }) := by
  unfold CompareLeaf
  rw [if_neg hop, hb]
  simp only [if_neg h1, if_neg h2, newBDDNode]
  split_ifs <;> rfl

/-- The leaf case for the tag `"=="`. -/
theorem CompareLeaf_eqTag {AAF Mgr : Type} (X : Collab AAF Mgr) (tmp : AAF) (t : ℚ)
    (c : List (constraint AAF)) (s : State Mgr) :
    CompareLeaf X tmp t c "==" s =
      (some (some (if X.eqDouble tmp t = true then ONE else ZERO)), s) := by
  unfold CompareLeaf
  simp only [if_true]
  split_ifs <;> rfl

/-- The possible outcomes of the leaf case: no bounds, a canonical terminal
with the state untouched, or one fresh node over the two terminals after one
registration. -/
theorem CompareLeaf_cases {AAF Mgr : Type} (X : Collab AAF Mgr) (tmp : AAF) (t : ℚ)
    (c : List (constraint AAF)) (op : String) (s : State Mgr) :
    CompareLeaf X tmp t c op s = (none, s) ∨
    CompareLeaf X tmp t c op s = (some (some ONE), s) ∨
    CompareLeaf X tmp t c op s = (some (some ZERO), s) ∨
    (∃ (idx : Nat) (m : Mgr), CompareLeaf X tmp t c op s =
      (some (some (.node (s.allocated + 2) idx ZERO ONE)),
        { mgr := m, allocated := s.allocated + 1 })) ∨
    (∃ (idx : Nat) (m : Mgr), CompareLeaf X tmp t c op s =
      (some (some (.node (s.allocated + 2) idx ONE ZERO)),
        { mgr := m, allocated := s.allocated + 1 })) := by
  by_cases hop : op = "=="
  · subst hop
    rw [CompareLeaf_eqTag]
    split_ifs
    · exact Or.inr (Or.inl rfl)
    · exact Or.inr (Or.inr (Or.inl rfl))
  · cases hb : X.solve_lp tmp c with
    | none => exact Or.inl (CompareLeaf_fail X tmp t c op s hop hb)
    | some bounds =>
      by_cases h1 : below bounds t
      · rw [CompareLeaf_below X tmp t c op s bounds hop hb h1]
        split_ifs
        · exact Or.inr (Or.inl rfl)
        · exact Or.inr (Or.inr (Or.inl rfl))
      · by_cases h2 : atOrAbove bounds t
        · rw [CompareLeaf_atOrAbove X tmp t c op s bounds hop hb h1 h2]
          split_ifs
          · exact Or.inr (Or.inr (Or.inl rfl))
          · exact Or.inr (Or.inl rfl)
        · rw [CompareLeaf_straddle X tmp t c op s bounds hop hb h1 h2]
          split_ifs
          · exact Or.inr (Or.inr (Or.inr (Or.inl ⟨_, _, rfl⟩)))
          · exact Or.inr (Or.inr (Or.inr (Or.inr ⟨_, _, rfl⟩)))

theorem placed_mono {n m : Nat} (h : n ≤ m) (d : BDDNode) : d.placed n → d.placed m := by
  induction d with
  | leaf a v => intro hd; exact hd
  | node a i T F ihT ihF =>
    intro hd
    simp only [BDDNode.placed] at hd ⊢
    exact ⟨hd.1, by omega, ihT hd.2.2.1, ihF hd.2.2.2⟩

theorem placed_ONE (n : Nat) : ONE.placed n := Or.inr ⟨rfl, rfl⟩

theorem placed_ZERO (n : Nat) : ZERO.placed n := Or.inl ⟨rfl, rfl⟩

theorem CompareLeaf_inv {AAF Mgr : Type} (X : Collab AAF Mgr) (tmp : AAF) (t : ℚ)
    (c : List (constraint AAF)) (op : String) (s : State Mgr) :
    CompareInv s (CompareLeaf X tmp t c op s) := by
  rcases CompareLeaf_cases X tmp t c op s with h | h | h | ⟨idx, m, h⟩ | ⟨idx, m, h⟩ <;>
    rw [h] <;> refine ⟨by simp, by simp, ?_⟩ <;> intro n hn <;>
    simp only [Option.some.injEq, reduceCtorEq] at hn
  · subst hn; exact ⟨placed_ONE _, trivial, Or.inl (by decide)⟩
  · subst hn; exact ⟨placed_ZERO _, trivial, Or.inl (by decide)⟩
  · subst hn
    refine ⟨⟨by omega, by simp, placed_ZERO _, placed_ONE _⟩, ⟨by decide, trivial, trivial⟩,
      Or.inr (by simp [BDDNode.addr])⟩
  · subst hn
    refine ⟨⟨by omega, by simp, placed_ONE _, placed_ZERO _⟩, ⟨by decide, trivial, trivial⟩,
      Or.inr (by simp [BDDNode.addr])⟩

/-- The recursive step when the true branch is abandoned. -/
theorem Compare_node_failT {AAF Mgr : Type} (X : Collab AAF Mgr) (i : Nat) (cond : AAF)
    (T F : AADDNode AAF) (t : ℚ) (c : List (constraint AAF)) (op : String)
    (s s1 : State Mgr)
    (hT : Compare X T t (c ++ [{ con := cond, sign := '+' }]) op s = (none, s1)) :
    Compare X (.node i cond T F) t c op s = (none, s1) := by
  rw [Compare]
  simp only [hT]

/-- The recursive step when the true branch returns a node and the false
branch is abandoned. -/
theorem Compare_node_failF {AAF Mgr : Type} (X : Collab AAF Mgr) (i : Nat) (cond : AAF)
    (T F : AADDNode AAF) (t : ℚ) (c : List (constraint AAF)) (op : String)
    (s s1 s2 : State Mgr) (nT : BDDNode)
    (hT : Compare X T t (c ++ [{ con := cond, sign := '+' }]) op s = (some (some nT), s1))
    (hF : Compare X F t (setBackSign (c ++ [{ con := cond, sign := '+' }]) '-') op s1
      = (none, s2)) :
    Compare X (.node i cond T F) t c op s = (none, s2) := by
  rw [Compare]
  simp only [hT, hF]

/-- The recursive step when both branches return a node: the shared node when
the two are the same object, a new node over them otherwise. -/
theorem Compare_node_ok {AAF Mgr : Type} (X : Collab AAF Mgr) (i : Nat) (cond : AAF)
    (T F : AADDNode AAF) (t : ℚ) (c : List (constraint AAF)) (op : String)
    (s s1 s2 : State Mgr) (nT nF : BDDNode)
    (hT : Compare X T t (c ++ [{ con := cond, sign := '+' }]) op s = (some (some nT), s1))
    (hF : Compare X F t (setBackSign (c ++ [{ con := cond, sign := '+' }]) '-') op s1
      = (some (some nF), s2)) :
    Compare X (.node i cond T F) t c op s =
      if nT.addr = nF.addr then (some (some nT), s2)
      else (some (some (.node (s2.allocated + 2) i nT nF)),
        { mgr := s2.mgr, allocated := s2.allocated + 1 }) := by
  rw [Compare]
  simp only [hT, hF, newBDDNode]

theorem Compare_inv {AAF Mgr : Type} (X : Collab AAF Mgr) (t : ℚ) (op : String)
    (f : AADDNode AAF) :
    ∀ (c : List (constraint AAF)) (s : State Mgr), CompareInv s (Compare X f t c op s) := by
  induction f with
  | leaf v =>
    intro c s
    rw [Compare]
    exact CompareLeaf_inv X v t c op s
  | node i cond T F ihT ihF =>
    intro c s
    have hT := ihT (c ++ [{ con := cond, sign := '+' }]) s
    rcases hrT : Compare X T t (c ++ [{ con := cond, sign := '+' }]) op s with ⟨rT, s1⟩
    rw [hrT] at hT
    rcases rT with _ | _ | nT
    · rw [Compare_node_failT X i cond T F t c op s s1 hrT]
      exact ⟨hT.1, by simp, by simp⟩
    · exact absurd rfl hT.2.1
    · have hF := ihF (setBackSign (c ++ [{ con := cond, sign := '+' }]) '-') s1
      rcases hrF : Compare X F t (setBackSign (c ++ [{ con := cond, sign := '+' }]) '-') op s1
        with ⟨rF, s2⟩
      rw [hrF] at hF
      have h12 : s1.allocated ≤ s2.allocated := hF.1
      have h01 : s.allocated ≤ s1.allocated := hT.1
      rcases rF with _ | _ | nF
      · rw [Compare_node_failF X i cond T F t c op s s1 s2 nT hrT hrF]
        exact ⟨le_trans h01 h12, by simp, by simp⟩
      · exact absurd rfl hF.2.1
      · rw [Compare_node_ok X i cond T F t c op s s1 s2 nT nF hrT hrF]
        obtain ⟨hTp, hTr, hTa⟩ := hT.2.2 nT rfl
        obtain ⟨hFp, hFr, hFa⟩ := hF.2.2 nF rfl
        simp only at hTp hFp hTa hFa h01 h12
        split_ifs with heq
        · refine ⟨le_trans h01 h12, by simp, ?_⟩
          intro n hn
          simp only [Option.some.injEq] at hn
          subst hn
          exact ⟨placed_mono h12 _ hTp, hTr, by omega⟩
        · refine ⟨by simp only; omega, by simp, ?_⟩
          intro n hn
          simp only [Option.some.injEq] at hn
          subst hn
          simp only [BDDNode.placed, BDDNode.reduced, BDDNode.addr]
          refine ⟨⟨by omega, by omega, placed_mono (by omega) _ hTp,
            placed_mono (by omega) _ hFp⟩, ⟨heq, hTr, hFr⟩, Or.inr (by omega)⟩

/-- When every solver call of the diagram delivers bounds, `Compare` returns a node. -/
theorem Compare_total {AAF Mgr : Type} (X : Collab AAF Mgr) (t : ℚ) (op : String)
    (f : AADDNode AAF) :
    ∀ (c : List (constraint AAF)) (s : State Mgr),
      (∀ p ∈ leafCalls f c, X.solve_lp p.1 p.2 ≠ none) →
      ∃ n s1, Compare X f t c op s = (some (some n), s1) := by
  induction f with
  | leaf v =>
    intro c s h
    rw [Compare]
    have hv : X.solve_lp v c ≠ none := h (v, c) (by simp [leafCalls])
    by_cases hop : op = "=="
    · subst hop
      rw [CompareLeaf_eqTag]
      exact ⟨_, _, rfl⟩
    · cases hb : X.solve_lp v c with
      | none => exact absurd hb hv
      | some bounds =>
        by_cases h1 : below bounds t
        · rw [CompareLeaf_below X v t c op s bounds hop hb h1]
          exact ⟨_, _, rfl⟩
        · by_cases h2 : atOrAbove bounds t
          · rw [CompareLeaf_atOrAbove X v t c op s bounds hop hb h1 h2]
            exact ⟨_, _, rfl⟩
          · rw [CompareLeaf_straddle X v t c op s bounds hop hb h1 h2]
            exact ⟨_, _, rfl⟩
  | node i cond T F ihT ihF =>
    intro c s h
    obtain ⟨nT, s1, hT⟩ := ihT (c ++ [{ con := cond, sign := '+' }]) s
      (fun p hp => h p (by simp only [leafCalls, List.mem_append]; exact Or.inl hp))
    obtain ⟨nF, s2, hF⟩ := ihF (setBackSign (c ++ [{ con := cond, sign := '+' }]) '-') s1
      (fun p hp => h p (by simp only [leafCalls, List.mem_append]; exact Or.inr hp))
    rw [Compare_node_ok X i cond T F t c op s s1 s2 nT nF hT hF]
    split_ifs
    · exact ⟨_, _, rfl⟩
    · exact ⟨_, _, rfl⟩

theorem wrapRoot_total {Mgr : Type} (r : Option Ptr × State Mgr)
    (h : ∃ n s1, r = (some (some n), s1)) :
    ∃ n s1, wrapRoot r = (some ⟨some n⟩, s1) := by
  obtain ⟨n, s1, rfl⟩ := h
  exact ⟨n, s1, rfl⟩

/-- C5: totality under valid input.  `Compare` is a total function defined by
structural recursion on the diagram; when the solver delivers bounds at every
leaf under its path constraints, `Compare` returns a node (neither no result
nor the null pointer) for every threshold, constraint set and operator tag,
and each of the operators `<=`, `<`, `>=`, `>` whose difference diagram this
is returns a boolean diagram with a non-null root. -/
theorem C5_totality {AAF Mgr : Type} (X : Collab AAF Mgr) (f : AADDNode AAF) (t : ℚ)
    (c : List (constraint AAF)) (op : String) (s : State Mgr)
    (h : ∀ p ∈ leafCalls f c, X.solve_lp p.1 p.2 ≠ none) :
    (∃ n s1, Compare X f t c op s = (some (some n), s1)) ∧
    (∀ a b : AADD AAF, X.minus a b = ⟨f⟩ → c = [] →
      (∃ n s1, AADD.operator_le X a b s = (some ⟨some n⟩, s1)) ∧
      (∃ n s1, AADD.operator_lt X a b s = (some ⟨some n⟩, s1)) ∧
      (∃ n s1, AADD.operator_ge X a b s = (some ⟨some n⟩, s1)) ∧
      (∃ n s1, AADD.operator_gt X a b s = (some ⟨some n⟩, s1))) := by
  refine ⟨Compare_total X t op f c s h, ?_⟩
  intro a b hab hc
  subst hc
  unfold AADD.operator_le AADD.operator_lt AADD.operator_ge AADD.operator_gt
  simp only [hab]
  exact ⟨wrapRoot_total _ (Compare_total X _ "<=" f [] s h),
    wrapRoot_total _ (Compare_total X _ "<" f [] s h),
    wrapRoot_total _ (Compare_total X _ ">=" f [] s h),
    wrapRoot_total _ (Compare_total X _ ">" f [] s h)⟩

theorem ivalMinus_mixedBranches :
    ivalCollab.minus mixedBranches (scalar 0) = ⟨mixedBranches.root⟩ := by
  simp [ivalCollab, mixedBranches, scalar, ivalMinus, ivalMinusLeaf, restrict]

/-- On a diagram with two non-empty ranges `>=` returns a diagram with a root. -/
theorem C5_totality_witness :
    ∃ n s1, AADD.operator_ge ivalCollab mixedBranches (scalar 0) s0 = (some ⟨some n⟩, s1) :=
  ((C5_totality ivalCollab mixedBranches.root 0 [] ">=" s0
    (by
      intro p hp
      simp only [mixedBranches, leafCalls, List.mem_append, List.mem_singleton] at hp
      rcases hp with hp | hp <;> subst hp <;> simp [ivalCollab])).2
    mixedBranches (scalar 0) ivalMinus_mixedBranches rfl).2.2.1

/-- C4: local reduction.  No internal node of a diagram returned by `Compare`
has the same object as true child and as false child (the canonical terminals
being two distinct objects); and whenever the results of the two branches of
an internal node are the same object, `Compare` returns that object itself,
not a node over it. -/
theorem C4_local_reduction {AAF Mgr : Type} (X : Collab AAF Mgr) (f : AADDNode AAF) (t : ℚ)
    (c : List (constraint AAF)) (op : String) (s s1 : State Mgr) (n : BDDNode)
    (h : Compare X f t c op s = (some (some n), s1)) :
    n.reduced ∧
    (∀ (i : Nat) (cond : AAF) (T F : AADDNode AAF) (nT nF : BDDNode) (sa sb : State Mgr),
      Compare X T t (c ++ [{ con := cond, sign := '+' }]) op s = (some (some nT), sa) →
      Compare X F t (setBackSign (c ++ [{ con := cond, sign := '+' }]) '-') op sa
        = (some (some nF), sb) →
      nT.addr = nF.addr →
      Compare X (.node i cond T F) t c op s = (some (some nT), sb)) := by
  constructor
  · have hinv := Compare_inv X t op f c s
    rw [h] at hinv
    exact (hinv.2.2 n rfl).2.1
  · intro i cond T F nT nF sa sb hT hF heq
    rw [Compare_node_ok X i cond T F t c op s sa sb nT nF hT hF, if_pos heq]

/-- The comparison of `mixedBranches` with `0` under `<`: a fresh node for the
uncertain branch, the false terminal for the scalar branch, one node over both. -/
theorem Compare_mixedBranches_lt :
    Compare ivalCollab mixedBranches.root 0 [] "<" s0 =
      (some (some (.node 3 0 (.node 2 0 ZERO ONE) ZERO)),
        { mgr := [⟨-1, 1⟩], allocated := 2 }) := by
  have hT : Compare ivalCollab (.leaf ⟨-1, 1⟩) 0 ([] ++ [{ con := ⟨-1, 1⟩, sign := '+' }]) "<" s0
      = (some (some (.node 2 0 ZERO ONE)), { mgr := [⟨-1, 1⟩], allocated := 1 }) := by
    rw [Compare, CompareLeaf_straddle ivalCollab _ 0 _ "<" s0 ⟨-1, 1⟩ (by decide)
      (by simp [ivalCollab]) (by unfold below; norm_num)
      (by unfold atOrAbove fabs eps20; norm_num)]
    simp [ivalCollab, listAddCond, s0]
  have hF : Compare ivalCollab (.leaf ⟨2, 2⟩) 0
      (setBackSign ([] ++ [{ con := ⟨-1, 1⟩, sign := '+' }]) '-') "<"
      { mgr := [⟨-1, 1⟩], allocated := 1 }
      = (some (some ZERO), { mgr := [⟨-1, 1⟩], allocated := 1 }) := by
    rw [Compare, CompareLeaf_atOrAbove ivalCollab _ 0 _ "<" _ ⟨2, 2⟩ (by decide)
      (by simp [ivalCollab]) (by unfold below; norm_num)
      (by unfold atOrAbove; norm_num)]
    simp
  unfold mixedBranches
  rw [Compare_node_ok ivalCollab 0 ⟨-1, 1⟩ _ _ 0 [] "<" s0 _ _ _ _ hT hF]
  simp [BDDNode.addr, ZERO]

/-- The diagram built for `mixedBranches < 0` has no node with identical children. -/
theorem C4_local_reduction_witness :
    (BDDNode.node 3 0 (.node 2 0 ZERO ONE) ZERO).reduced :=
  (C4_local_reduction ivalCollab mixedBranches.root 0 [] "<" s0 _ _
    Compare_mixedBranches_lt).1

/-- C6: an undetermined leaf yields one fresh decision node.  For a tag among
`<=`, `<`, `>=`, `>`, when the solver bounds pass neither bound test, `Compare`
on the leaf registers `leafValue - threshold`, and returns a node allocated
by this call whose index is the registry index and whose children are
(false terminal, true terminal) for `<=` and `<`, and (true terminal, false
terminal) for `>=` and `>`. -/
theorem C6_undetermined_leaf {AAF Mgr : Type} (X : Collab AAF Mgr) (tmp : AAF) (t : ℚ)
    (c : List (constraint AAF)) (op : String) (s : State Mgr) (bounds : opt_sol)
    (hop : op = "<=" ∨ op = "<" ∨ op = ">=" ∨ op = ">")
    (hb : X.solve_lp tmp c = some bounds)
    (h1 : ¬ below bounds t) (h2 : ¬ atOrAbove bounds t) :
    (op = "<=" ∨ op = "<" →
      Compare X (.leaf tmp) t c op s =
        (some (some (.node (s.allocated + 2)
          (X.addCond s.mgr (X.sub tmp (X.ofDouble t))).1 ZERO ONE)),
          { mgr := (X.addCond s.mgr (X.sub tmp (X.ofDouble t))).2,
            allocated := s.allocated + 1 })) ∧
    (op = ">=" ∨ op = ">" →
      Compare X (.leaf tmp) t c op s =
        (some (some (.node (s.allocated + 2)
          (X.addCond s.mgr (X.sub tmp (X.ofDouble t))).1 ONE ZERO)),
          { mgr := (X.addCond s.mgr (X.sub tmp (X.ofDouble t))).2,
            allocated := s.allocated + 1 })) := by
  have hne : op ≠ "==" := by
    rcases hop with h | h | h | h <;> subst h <;> decide
  rw [Compare, CompareLeaf_straddle X tmp t c op s bounds hne hb h1 h2]
  constructor
  · intro hle
    rw [if_pos hle, if_pos hle]
  · intro hge
    have hnle : ¬ (op = "<=" ∨ op = "<") := by
      rcases hge with h | h <;> subst h <;> decide
    rw [if_neg hnle, if_neg hnle]

/-- Scenario 2 of the specification: a range `[-1, 1]` compared `<` with `0`
gives a single internal node with children (false, true), not a constant. -/
theorem C6_undetermined_leaf_witness :
    Compare ivalCollab (.leaf ⟨-1, 1⟩) 0 [] "<" s0 =
      (some (some (.node 2 0 ZERO ONE)), { mgr := [⟨-1, 1⟩], allocated := 1 }) := by
  have h := (C6_undetermined_leaf ivalCollab ⟨-1, 1⟩ 0 [] "<" s0 ⟨-1, 1⟩ (by decide)
    (by simp [ivalCollab]) (by unfold below; norm_num)
    (by unfold atOrAbove fabs eps20; norm_num)).1 (by decide)
  simpa [ivalCollab, listAddCond, s0] using h

/-- The difference of two scalars in the interval instance is one leaf. -/
theorem ivalMinus_scalar (x y : ℚ) :
    ivalCollab.minus (scalar x) (scalar y) = ⟨.leaf ⟨x - y, x - y⟩⟩ := rfl

/-- The solver of the interval instance on a point. -/
theorem ivalSolve_point (d : ℚ) (c : List (constraint Ival)) :
    ivalCollab.solve_lp ⟨d, d⟩ c = some ⟨d, d⟩ := by
  simp [ivalCollab]

/-- C7 (as amended): tolerance window of `<=` and `>`.  For leaf operands whose
scalar difference `d` (the solver range is the point `d`) satisfies
`0 <= d <= 1e-10 - 1e-20`, `<=` returns the canonical true terminal and `>`
returns the canonical false terminal. -/
theorem C7_tolerance_window {AAF Mgr : Type} (X : Collab AAF Mgr) (a b : AADD AAF) (v : AAF)
    (d : ℚ) (s : State Mgr) (hd : X.minus a b = ⟨.leaf v⟩)
    (hb : X.solve_lp v [] = some ⟨d, d⟩) (_h0 : 0 ≤ d) (h1 : d ≤ eps10 - eps20) :
    AADD.operator_le X a b s = (some ⟨some ONE⟩, s) ∧
    AADD.operator_gt X a b s = (some ⟨some ZERO⟩, s) := by
  have hle := Compare_leaf_point X v (0 + eps10) d "<=" s (by decide) hb
  have hgt := Compare_leaf_point X v (0 + eps10) d ">" s (by decide) hb
  have h2 : d ≤ 0 + eps10 - eps20 := by linarith
  have h3 : ¬ (">" = "<=" ∨ ">" = "<") := by decide
  simp only [if_pos h2, true_or, if_true] at hle
  simp only [if_pos h2, if_neg h3] at hgt
  unfold AADD.operator_le AADD.operator_gt
  simp only [hd]
  exact ⟨hle, hgt⟩

/-- The difference `5e-11` lies in the window: `<=` holds and `>` fails. -/
theorem C7_tolerance_window_witness :
    AADD.operator_le ivalCollab (scalar (5 / 10 ^ 11)) (scalar 0) s0 = (some ⟨some ONE⟩, s0) ∧
    AADD.operator_gt ivalCollab (scalar (5 / 10 ^ 11)) (scalar 0) s0 = (some ⟨some ZERO⟩, s0) :=
  C7_tolerance_window ivalCollab (scalar (5 / 10 ^ 11)) (scalar 0) _ (5 / 10 ^ 11 - 0) s0
    (ivalMinus_scalar _ _) (ivalSolve_point _ _) (by norm_num)
    (by unfold eps10 eps20; norm_num)

/-- The difference `1e-10 - 1e-21` lies in `[0, 1e-10)`, yet `<=` returns the
canonical false terminal and `>` the canonical true terminal. -/
theorem C7_window_counterexample :
    (0 : ℚ) ≤ 1 / 10 ^ 10 - 1 / 10 ^ 21 ∧ (1 / 10 ^ 10 - 1 / 10 ^ 21 : ℚ) < 1 / 10 ^ 10 ∧
    AADD.operator_le ivalCollab (scalar (1 / 10 ^ 10 - 1 / 10 ^ 21)) (scalar 0) s0
      = (some ⟨some ZERO⟩, s0) ∧
    AADD.operator_gt ivalCollab (scalar (1 / 10 ^ 10 - 1 / 10 ^ 21)) (scalar 0) s0
      = (some ⟨some ONE⟩, s0) := by
  have hle := Compare_leaf_point ivalCollab ⟨1 / 10 ^ 10 - 1 / 10 ^ 21 - 0,
    1 / 10 ^ 10 - 1 / 10 ^ 21 - 0⟩ (0 + eps10) (1 / 10 ^ 10 - 1 / 10 ^ 21 - 0) "<=" s0
    (by decide) (ivalSolve_point _ _)
  have hgt := Compare_leaf_point ivalCollab ⟨1 / 10 ^ 10 - 1 / 10 ^ 21 - 0,
    1 / 10 ^ 10 - 1 / 10 ^ 21 - 0⟩ (0 + eps10) (1 / 10 ^ 10 - 1 / 10 ^ 21 - 0) ">" s0
    (by decide) (ivalSolve_point _ _)
  have h2 : ¬ ((1 / 10 ^ 10 - 1 / 10 ^ 21 - 0 : ℚ) ≤ 0 + eps10 - eps20) := by
    unfold eps10 eps20; norm_num
  have h3 : ¬ (">" = "<=" ∨ ">" = "<") := by decide
  simp only [if_neg h2, true_or, if_true] at hle
  simp only [if_neg h2, if_neg h3] at hgt
  refine ⟨by norm_num, by norm_num, ?_, ?_⟩
  · unfold AADD.operator_le
    rw [ivalMinus_scalar]
    exact hle
  · unfold AADD.operator_gt
    rw [ivalMinus_scalar]
    exact hgt

/-- C8: what the code does at `l = 0`, `r = 1e-21`.  The scalars satisfy
`l < r`, so `<` should be the canonical true terminal and `>=` the canonical
false terminal; the difference `-1e-21` is within `1e-20` of the threshold
`0`, the first bound test of `Compare` fails on its guard and the second
holds, and `<` returns the canonical false terminal, `>=` the canonical true
terminal. -/
theorem C8_lt_ge_near_zero :
    (0 : ℚ) < 1 / 10 ^ 21 ∧
    AADD.operator_lt ivalCollab (scalar 0) (scalar (1 / 10 ^ 21)) s0
      = (some ⟨some ZERO⟩, s0) ∧
    AADD.operator_ge ivalCollab (scalar 0) (scalar (1 / 10 ^ 21)) s0
      = (some ⟨some ONE⟩, s0) := by
  have hlt := Compare_leaf_point ivalCollab ⟨0 - 1 / 10 ^ 21, 0 - 1 / 10 ^ 21⟩ 0
    (0 - 1 / 10 ^ 21) "<" s0 (by decide) (ivalSolve_point _ _)
  have hge := Compare_leaf_point ivalCollab ⟨0 - 1 / 10 ^ 21, 0 - 1 / 10 ^ 21⟩ 0
    (0 - 1 / 10 ^ 21) ">=" s0 (by decide) (ivalSolve_point _ _)
  have h2 : ¬ ((0 - 1 / 10 ^ 21 : ℚ) ≤ 0 - eps20) := by
    unfold eps20; norm_num
  have h3 : ¬ (">=" = "<=" ∨ ">=" = "<") := by decide
  simp only [if_neg h2, or_true, if_true] at hlt
  simp only [if_neg h2, if_neg h3] at hge
  refine ⟨by norm_num, ?_, ?_⟩
  · unfold AADD.operator_lt
    rw [ivalMinus_scalar]
    exact hlt
  · unfold AADD.operator_ge
    rw [ivalMinus_scalar]
    exact hge

/-- On the diagrams `Compare` builds, exchanging the terminals does not change
which pairs of nodes are the same object. -/
theorem neg_addr_eq_iff {a b : BDDNode} {n m : Nat} (ha : a.placed n) (hb : b.placed m) :
    a.neg.addr = b.neg.addr ↔ a.addr = b.addr := by
  cases a with
  | leaf x v =>
    cases b with
    | leaf y w =>
      rcases ha with ⟨rfl, rfl⟩ | ⟨rfl, rfl⟩ <;> rcases hb with ⟨rfl, rfl⟩ | ⟨rfl, rfl⟩ <;>
        simp [BDDNode.neg, BDDNode.addr, ONE, ZERO]
    | node y j T F =>
      have hy : 2 ≤ y := hb.1
      rcases ha with ⟨rfl, rfl⟩ | ⟨rfl, rfl⟩ <;>
        simp [BDDNode.neg, BDDNode.addr, ONE, ZERO] <;> omega
  | node x i T F =>
    have hx : 2 ≤ x := ha.1
    cases b with
    | leaf y w =>
      rcases hb with ⟨rfl, rfl⟩ | ⟨rfl, rfl⟩ <;>
        simp [BDDNode.neg, BDDNode.addr, ONE, ZERO] <;> omega
    | node y j T2 F2 => simp [BDDNode.neg, BDDNode.addr]

/-- The leaf case under a tag of the `>=`, `>` class is the leaf case under a
tag of the `<=`, `<` class with the terminals exchanged; the state evolves in
the same way. -/
theorem CompareLeaf_neg {AAF Mgr : Type} (X : Collab AAF Mgr) (tmp : AAF) (t : ℚ)
    (c : List (constraint AAF)) (op1 op2 : String) (s : State Mgr)
    (h1 : op1 = "<=" ∨ op1 = "<") (h2 : op2 ≠ "==") (h3 : ¬ (op2 = "<=" ∨ op2 = "<")) :
    CompareLeaf X tmp t c op2 s =
      ((CompareLeaf X tmp t c op1 s).1.map (Option.map BDDNode.neg),
        (CompareLeaf X tmp t c op1 s).2) := by
  have h0 : op1 ≠ "==" := by
    rcases h1 with h | h <;> subst h <;> decide
  cases hb : X.solve_lp tmp c with
  | none =>
    rw [CompareLeaf_fail X tmp t c op1 s h0 hb, CompareLeaf_fail X tmp t c op2 s h2 hb]
    rfl
  | some bounds =>
    by_cases hbel : below bounds t
    · rw [CompareLeaf_below X tmp t c op1 s bounds h0 hb hbel,
        CompareLeaf_below X tmp t c op2 s bounds h2 hb hbel, if_pos h1, if_neg h3]
      rfl
    · by_cases hab : atOrAbove bounds t
      · rw [CompareLeaf_atOrAbove X tmp t c op1 s bounds h0 hb hbel hab,
          CompareLeaf_atOrAbove X tmp t c op2 s bounds h2 hb hbel hab, if_pos h1, if_neg h3]
        rfl
      · rw [CompareLeaf_straddle X tmp t c op1 s bounds h0 hb hbel hab,
          CompareLeaf_straddle X tmp t c op2 s bounds h2 hb hbel hab, if_pos h1, if_neg h3,
          if_pos h1, if_neg h3]
        rfl

/-- The diagram `Compare` returns under a tag of the `>=`, `>` class is the one
it returns under a tag of the `<=`, `<` class with the terminals exchanged:
same shape, same indices, same addresses, same collapses, same final state. -/
theorem Compare_neg {AAF Mgr : Type} (X : Collab AAF Mgr) (t : ℚ) (op1 op2 : String)
    (h1 : op1 = "<=" ∨ op1 = "<") (h2 : op2 ≠ "==") (h3 : ¬ (op2 = "<=" ∨ op2 = "<"))
    (f : AADDNode AAF) :
    ∀ (c : List (constraint AAF)) (s : State Mgr),
      Compare X f t c op2 s =
        ((Compare X f t c op1 s).1.map (Option.map BDDNode.neg),
          (Compare X f t c op1 s).2) := by
  induction f with
  | leaf v =>
    intro c s
    rw [Compare, Compare]
    exact CompareLeaf_neg X v t c op1 op2 s h1 h2 h3
  | node i cond T F ihT ihF =>
    intro c s
    have hT := ihT (c ++ [{ con := cond, sign := '+' }]) s
    have hTi := Compare_inv X t op1 T (c ++ [{ con := cond, sign := '+' }]) s
    rcases hrT : Compare X T t (c ++ [{ con := cond, sign := '+' }]) op1 s with ⟨rT, s1⟩
    rw [hrT] at hT hTi
    rcases rT with _ | _ | nT
    · rw [Compare_node_failT X i cond T F t c op1 s s1 hrT,
        Compare_node_failT X i cond T F t c op2 s s1 hT]
      rfl
    · exact absurd rfl hTi.2.1
    · have hF := ihF (setBackSign (c ++ [{ con := cond, sign := '+' }]) '-') s1
      have hFi := Compare_inv X t op1 F (setBackSign (c ++ [{ con := cond, sign := '+' }]) '-') s1
      rcases hrF : Compare X F t (setBackSign (c ++ [{ con := cond, sign := '+' }]) '-') op1 s1
        with ⟨rF, s2⟩
      rw [hrF] at hF hFi
      rcases rF with _ | _ | nF
      · rw [Compare_node_failF X i cond T F t c op1 s s1 s2 nT hrT hrF,
          Compare_node_failF X i cond T F t c op2 s s1 s2 nT.neg hT hF]
        rfl
      · exact absurd rfl hFi.2.1
      · rw [Compare_node_ok X i cond T F t c op1 s s1 s2 nT nF hrT hrF,
          Compare_node_ok X i cond T F t c op2 s s1 s2 nT.neg nF.neg hT hF]
        have hiff := neg_addr_eq_iff (hTi.2.2 nT rfl).1 (hFi.2.2 nF rfl).1
        by_cases heq : nT.addr = nF.addr
        · rw [if_pos heq, if_pos (hiff.mpr heq)]
          rfl
        · rw [if_neg heq, if_neg (fun h => heq (hiff.mp h))]
          rfl

/-- The order operator `>` on any operands is `<=` with the terminals exchanged. -/
theorem operator_gt_eq_neg_le {AAF Mgr : Type} (X : Collab AAF Mgr) (a b : AADD AAF)
    (s : State Mgr) :
    AADD.operator_gt X a b s =
      ((AADD.operator_le X a b s).1.map BDD.neg, (AADD.operator_le X a b s).2) := by
  unfold AADD.operator_gt AADD.operator_le
  simp only
  rw [Compare_neg X (0 + eps10) "<=" ">" (by decide) (by decide) (by decide)]
  rcases Compare X (X.minus a b).root (0 + eps10) [] "<=" s with ⟨r, s1⟩
  rcases r with _ | p
  · rfl
  · rfl

/-- C9 (as amended): `a > b` is the complement of `a <= b` on all operands,
undetermined leaves included: from the same state, the diagram returned by
`a > b` is the diagram returned by `a <= b` with the true and false terminals
exchanged (same nodes, same condition indices), and both calls leave the same
state. -/
theorem C9_gt_is_neg_le {AAF Mgr : Type} (X : Collab AAF Mgr) (a b : AADD AAF)
    (s : State Mgr) :
    (AADD.operator_gt X a b s).1 = (AADD.operator_le X a b s).1.map BDD.neg ∧
    (AADD.operator_gt X a b s).2 = (AADD.operator_le X a b s).2 := by
  rw [operator_gt_eq_neg_le X a b s]
  exact ⟨rfl, rfl⟩

/-- There are no operands, with or without a leaf of the difference whose
bounds straddle `1e-10`, on which the diagram returned by `a > b` differs from
the one returned by `a <= b` with the terminals exchanged. -/
theorem C9_no_divergence :
    ¬ ∃ (AAF Mgr : Type) (X : Collab AAF Mgr) (a b : AADD AAF) (s : State Mgr),
      (∃ p ∈ leafCalls (X.minus a b).root [], ∃ bounds, X.solve_lp p.1 p.2 = some bounds ∧
        ¬ below bounds (0 + eps10) ∧ ¬ atOrAbove bounds (0 + eps10)) ∧
      (AADD.operator_gt X a b s).1 ≠ (AADD.operator_le X a b s).1.map BDD.neg := by
  rintro ⟨AAF, Mgr, X, a, b, s, _, hne⟩
  apply hne
  rw [operator_gt_eq_neg_le X a b s]

/-- C10: consistency of negation.  On value diagrams, `a == b` is the
conjunction of `Compare(diff, 0, {}, ">=")` and `Compare(diff, 1e-10, {}, "<=")`
and `a != b` is the negation of the diagram `a == b`; on boolean diagrams,
`p != q` is the exclusive or of `p` and `q`, `p == q` is the negation of that
exclusive or, hence the negation of `p != q`. -/
theorem C10_negation_consistency {AAF Mgr : Type} (X : Collab AAF Mgr) (a b : AADD AAF)
    (p q : BDD) (s : State Mgr) :
    (AADD.operator_eq X a b s =
      match Compare X (X.minus a b).root 0 [] ">=" s with
      | (none, s1) => (none, s1)
      | (some ge, s1) =>
        match Compare X (X.minus a b).root eps10 [] "<=" s1 with
        | (none, s2) => (none, s2)
        | (some le, s2) =>
          (some ⟨(X.ApplyBinOp BinOp.And ge le s2).1⟩, (X.ApplyBinOp BinOp.And ge le s2).2)) ∧
    (AADD.operator_ne X a b s =
      match AADD.operator_eq X a b s with
      | (none, s1) => (none, s1)
      | (some d, s1) => (some (X.bddNot d s1).1, (X.bddNot d s1).2)) ∧
    BDD.operator_ne X p q s = X.bddXor p q s ∧
    BDD.operator_eq X p q s = X.bddNot (X.bddXor p q s).1 (X.bddXor p q s).2 ∧
    BDD.operator_eq X p q s =
      X.bddNot (BDD.operator_ne X p q s).1 (BDD.operator_ne X p q s).2 :=
  ⟨rfl, rfl, rfl, rfl, rfl⟩

/-- `Compare` reads its tag only through the tests `op=="=="` and
`op=="<=" or op=="<"`: two tags that answer both tests alike give the same result. -/
theorem Compare_tag {AAF Mgr : Type} (X : Collab AAF Mgr) (t : ℚ) (op1 op2 : String)
    (h1 : op1 ≠ "==") (h2 : op2 ≠ "==")
    (hc : (op1 = "<=" ∨ op1 = "<") ↔ (op2 = "<=" ∨ op2 = "<")) (f : AADDNode AAF) :
    ∀ (c : List (constraint AAF)) (s : State Mgr),
      Compare X f t c op1 s = Compare X f t c op2 s := by
  induction f with
  | leaf v =>
    intro c s
    rw [Compare, Compare]
    unfold CompareLeaf
    rw [if_neg h1, if_neg h2]
    simp only [hc]
  | node i cond T F ihT ihF =>
    intro c s
    rw [Compare, Compare]
    simp only [ihT, ihF]

/-- C17: strictness is carried by the threshold only, not by the tag.  For
every diagram, threshold and constraint set, `Compare` gives the same result
under `"<="` and `"<"`, and the same result under `">="` and `">"`; every tag
other than `"<="`, `"<"` and `"=="` is handled as `">="`.  Hence `a <= b` is
`Compare(a - b, 1e-10, {}, "<")` and `a > b` is `Compare(a - b, 1e-10, {}, ">=")`. -/
theorem C17_strictness_in_threshold {AAF Mgr : Type} (X : Collab AAF Mgr) (f : AADDNode AAF)
    (t : ℚ) (c : List (constraint AAF)) (s : State Mgr) (a b : AADD AAF) :
    Compare X f t c "<=" s = Compare X f t c "<" s ∧
    Compare X f t c ">=" s = Compare X f t c ">" s ∧
    (∀ op : String, op ≠ "<=" → op ≠ "<" → op ≠ "==" →
      Compare X f t c op s = Compare X f t c ">=" s) ∧
    AADD.operator_le X a b s = wrapRoot (Compare X (X.minus a b).root eps10 [] "<" s) ∧
    AADD.operator_gt X a b s = wrapRoot (Compare X (X.minus a b).root eps10 [] ">=" s) := by
  refine ⟨Compare_tag X t "<=" "<" (by decide) (by decide) (by decide) f c s,
    Compare_tag X t ">=" ">" (by decide) (by decide) (by decide) f c s, ?_, ?_, ?_⟩
  · intro op h1 h2 h3
    refine Compare_tag X t op ">=" h3 (by decide) ?_ f c s
    constructor
    · rintro (h | h)
      · exact absurd h h1
      · exact absurd h h2
    · intro h
      exact absurd h (by decide)
  · unfold AADD.operator_le
    simp only [zero_add]
    rw [Compare_tag X eps10 "<=" "<" (by decide) (by decide) (by decide)]
  · unfold AADD.operator_gt
    simp only [zero_add]
    rw [Compare_tag X eps10 ">" ">=" (by decide) (by decide) (by decide)]

/-- An unknown tag such as `"!="` is compared as `">="`. -/
theorem C17_strictness_in_threshold_witness :
    Compare ivalCollab mixedBranches.root 0 [] "!=" s0
      = Compare ivalCollab mixedBranches.root 0 [] ">=" s0 :=
  (C17_strictness_in_threshold ivalCollab mixedBranches.root 0 [] s0 mixedBranches
    (scalar 0)).2.2.1 "!=" (by decide) (by decide) (by decide)

/-- Exchanging the terminals twice gives the diagram back. -/
theorem neg_neg_placed (d : BDDNode) (n : Nat) : d.placed n → d.neg.neg = d := by
  induction d with
  | leaf a v =>
    intro h
    rcases h with ⟨rfl, rfl⟩ | ⟨rfl, rfl⟩ <;> rfl
  | node a i T F ihT ihF =>
    intro h
    simp only [BDDNode.neg, ihT h.2.2.1, ihF h.2.2.2]

/-- The result under a `<=`, `<` tag recovered from the result under a `>=`,
`>` tag by exchanging the terminals. -/
theorem Compare_neg_back {AAF Mgr : Type} (X : Collab AAF Mgr) (t : ℚ) (op1 op2 : String)
    (h1 : op1 = "<=" ∨ op1 = "<") (h2 : op2 ≠ "==") (h3 : ¬ (op2 = "<=" ∨ op2 = "<"))
    (f : AADDNode AAF) (c : List (constraint AAF)) (s : State Mgr) :
    Compare X f t c op1 s =
      ((Compare X f t c op2 s).1.map (Option.map BDDNode.neg), (Compare X f t c op2 s).2) := by
  rw [Compare_neg X t op1 op2 h1 h2 h3 f c s]
  have hinv := Compare_inv X t op1 f c s
  rcases hr : Compare X f t c op1 s with ⟨r, s1⟩
  rw [hr] at hinv
  rcases r with _ | _ | n
  · rfl
  · rfl
  · have hp := (hinv.2.2 n rfl).1
    simp only [Option.map_some', neg_neg_placed n _ hp]

/-- C16: `<` and `>=` are exact complements on every input, undetermined
leaves included.  From the same state, `Compare(f, 0, c, "<")` is
`Compare(f, 0, c, ">=")` with the canonical true and false terminals
exchanged everywhere (same nodes at the same addresses, same condition
indices, hence collapses at the same places) and both calls end in the same
state; so `a < b` is the terminal exchange of `a >= b` for all operands. -/
theorem C16_lt_ge_complement {AAF Mgr : Type} (X : Collab AAF Mgr) (f : AADDNode AAF)
    (c : List (constraint AAF)) (s : State Mgr) (a b : AADD AAF) :
    (Compare X f 0 c "<" s).1 = (Compare X f 0 c ">=" s).1.map (Option.map BDDNode.neg) ∧
    (Compare X f 0 c "<" s).2 = (Compare X f 0 c ">=" s).2 ∧
    (AADD.operator_lt X a b s).1 = (AADD.operator_ge X a b s).1.map BDD.neg ∧
    (AADD.operator_lt X a b s).2 = (AADD.operator_ge X a b s).2 := by
  have key : ∀ g : AADDNode AAF, Compare X g 0 c "<" s =
      ((Compare X g 0 c ">=" s).1.map (Option.map BDDNode.neg), (Compare X g 0 c ">=" s).2) :=
    fun g => Compare_neg_back X 0 "<" ">=" (by decide) (by decide) (by decide) g c s
  have key0 : ∀ g : AADDNode AAF, Compare X g 0 [] "<" s =
      ((Compare X g 0 [] ">=" s).1.map (Option.map BDDNode.neg),
        (Compare X g 0 [] ">=" s).2) :=
    fun g => Compare_neg_back X 0 "<" ">=" (by decide) (by decide) (by decide) g [] s
  refine ⟨by rw [key f], by rw [key f], ?_, ?_⟩
  · unfold AADD.operator_lt AADD.operator_ge
    simp only
    rw [key0]
    rcases Compare X (X.minus a b).root 0 [] ">=" s with ⟨r, s1⟩
    rcases r with _ | p <;> rfl
  · unfold AADD.operator_lt AADD.operator_ge
    simp only
    rw [key0]
    rcases Compare X (X.minus a b).root 0 [] ">=" s with ⟨r, s1⟩
    rcases r with _ | p <;> rfl

/-- C18: closed form of the leaf classification.  For a tag among `<=`, `<`,
`>=`, `>` and solver bounds with `min <= max`: the first bound test holds iff
`max <= t - 1e-20`; the second holds iff `min > t - 1e-20`; the two never hold
together; `Compare` on the leaf produces a decision node iff
`min <= t - 1e-20 < max`; and a leaf with `min = max` always resolves to a
canonical terminal, the state untouched. -/
theorem C18_leaf_classification {AAF Mgr : Type} (X : Collab AAF Mgr) (v : AAF) (t : ℚ)
    (c : List (constraint AAF)) (op : String) (s : State Mgr) (b : opt_sol)
    (hop : op = "<=" ∨ op = "<" ∨ op = ">=" ∨ op = ">")
    (hb : X.solve_lp v c = some b) (hmm : b.min ≤ b.max) :
    (below b t ↔ b.max ≤ t - eps20) ∧
    (atOrAbove b t ↔ t - eps20 < b.min) ∧
    ¬ (below b t ∧ atOrAbove b t) ∧
    ((∃ a i T F s1, Compare X (.leaf v) t c op s = (some (some (.node a i T F)), s1)) ↔
      (b.min ≤ t - eps20 ∧ t - eps20 < b.max)) ∧
    (b.min = b.max →
      Compare X (.leaf v) t c op s = (some (some ONE), s) ∨
      Compare X (.leaf v) t c op s = (some (some ZERO), s)) := by
  have hne : op ≠ "==" := by
    rcases hop with h | h | h | h <;> subst h <;> decide
  refine ⟨below_iff b t, atOrAbove_iff b t, ?_, ?_, ?_⟩
  · rw [below_iff, atOrAbove_iff]
    rintro ⟨h1, h2⟩
    linarith
  · rw [Compare]
    by_cases h1 : below b t
    · rw [CompareLeaf_below X v t c op s b hne hb h1]
      have h1' := (below_iff b t).mp h1
      constructor
      · rintro ⟨a, i, T, F, s1, h⟩
        split_ifs at h <;> simp [ONE, ZERO] at h
      · rintro ⟨_, h2⟩
        linarith
    · by_cases h2 : atOrAbove b t
      · rw [CompareLeaf_atOrAbove X v t c op s b hne hb h1 h2]
        have h2' := (atOrAbove_iff b t).mp h2
        constructor
        · rintro ⟨a, i, T, F, s1, h⟩
          split_ifs at h <;> simp [ONE, ZERO] at h
        · rintro ⟨h3, _⟩
          linarith
      · rw [CompareLeaf_straddle X v t c op s b hne hb h1 h2]
        rw [below_iff] at h1
        rw [atOrAbove_iff] at h2
        constructor
        · intro _
          exact ⟨not_lt.mp h2, not_le.mp h1⟩
        · intro _
          exact ⟨_, _, _, _, _, rfl⟩
  · intro heq
    rw [Compare]
    by_cases h1 : below b t
    · rw [CompareLeaf_below X v t c op s b hne hb h1]
      split_ifs
      · exact Or.inl rfl
      · exact Or.inr rfl
    · have h2 : atOrAbove b t := by
        rw [below_iff] at h1
        rw [atOrAbove_iff]
        rw [heq]
        exact not_le.mp h1
      rw [CompareLeaf_atOrAbove X v t c op s b hne hb h1 h2]
      split_ifs
      · exact Or.inr rfl
      · exact Or.inl rfl

/-- The range `[-1, 1]` against the threshold `0` under `<`: a decision node
is produced, as `-1 <= 0 - 1e-20 < 1`. -/
theorem C18_leaf_classification_witness :
    ∃ a i T F s1, Compare ivalCollab (.leaf ⟨-1, 1⟩) 0 [] "<" s0
      = (some (some (.node a i T F)), s1) :=
  (C18_leaf_classification ivalCollab ⟨-1, 1⟩ 0 [] "<" s0 ⟨-1, 1⟩ (by decide)
    (by simp [ivalCollab]) (by norm_num)).2.2.2.1.mpr
    (by unfold eps20; norm_num)

/-- The diagram returned by `Compare` has at most as many internal nodes as
the input has leaves and internal nodes. -/
theorem Compare_size {AAF Mgr : Type} (X : Collab AAF Mgr) (t : ℚ) (op : String)
    (f : AADDNode AAF) :
    ∀ (c : List (constraint AAF)) (s s1 : State Mgr) (n : BDDNode),
      Compare X f t c op s = (some (some n), s1) →
      n.internalCount ≤ f.leafCount + f.internalCount := by
  induction f with
  | leaf v =>
    intro c s s1 n h
    rw [Compare] at h
    simp only [AADDNode.leafCount, AADDNode.internalCount]
    rcases CompareLeaf_cases X v t c op s with h1 | h1 | h1 | ⟨idx, m, h1⟩ | ⟨idx, m, h1⟩ <;>
      rw [h1] at h <;> simp only [Prod.mk.injEq, Option.some.injEq, reduceCtorEq,
        false_and] at h
    · rw [← h.1]; simp [ONE, BDDNode.internalCount]
    · rw [← h.1]; simp [ZERO, BDDNode.internalCount]
    · rw [← h.1]; simp [ONE, ZERO, BDDNode.internalCount]
    · rw [← h.1]; simp [ONE, ZERO, BDDNode.internalCount]
  | node i cond T F ihT ihF =>
    intro c s s1 n h
    have hTi := Compare_inv X t op T (c ++ [{ con := cond, sign := '+' }]) s
    rcases hrT : Compare X T t (c ++ [{ con := cond, sign := '+' }]) op s with ⟨rT, sa⟩
    rw [hrT] at hTi
    rcases rT with _ | _ | nT
    · rw [Compare_node_failT X i cond T F t c op s sa hrT] at h
      simp at h
    · exact absurd rfl hTi.2.1
    · have hFi := Compare_inv X t op F (setBackSign (c ++ [{ con := cond, sign := '+' }]) '-') sa
      rcases hrF : Compare X F t (setBackSign (c ++ [{ con := cond, sign := '+' }]) '-') op sa
        with ⟨rF, sb⟩
      rw [hrF] at hFi
      rcases rF with _ | _ | nF
      · rw [Compare_node_failF X i cond T F t c op s sa sb nT hrT hrF] at h
        simp at h
      · exact absurd rfl hFi.2.1
      · rw [Compare_node_ok X i cond T F t c op s sa sb nT nF hrT hrF] at h
        have h1 := ihT _ s sa nT hrT
        have h2 := ihF _ sa sb nF hrF
        simp only [AADDNode.leafCount, AADDNode.internalCount]
        split_ifs at h
        · simp only [Prod.mk.injEq, Option.some.injEq] at h
          rw [← h.1]
          omega
        · simp only [Prod.mk.injEq, Option.some.injEq] at h
          rw [← h.1]
          simp only [BDDNode.internalCount]
          omega

/-- C14 (as amended): output size bound.  The number of internal nodes of the
diagram returned by `Compare` is at most the number of leaves of the input
diagram plus the number of its internal nodes, a node of the input counted
once per path that leads to it from the root (for an input without shared
nodes: once). -/
theorem C14_output_size {AAF Mgr : Type} (X : Collab AAF Mgr) (f : AADDNode AAF) (t : ℚ)
    (c : List (constraint AAF)) (op : String) (s s1 : State Mgr) (n : BDDNode)
    (h : Compare X f t c op s = (some (some n), s1)) :
    n.internalCount ≤ f.leafCount + f.internalCount :=
  Compare_size X t op f c s s1 n h

/-- The two nodes built for `mixedBranches < 0` against two leaves and one
internal node of the input. -/
theorem C14_output_size_witness :
    (BDDNode.node 3 0 (.node 2 0 ZERO ONE) ZERO).internalCount
      ≤ mixedBranches.root.leafCount + mixedBranches.root.internalCount :=
  C14_output_size ivalCollab mixedBranches.root 0 [] "<" s0 _ _ Compare_mixedBranches_lt

/-- A leaf of the interval instance whose range reaches from `-1` or below to
`1` or above, compared with `0` under `<`: one fresh node after one registration. -/
theorem Compare_wide_range_lt (v : Ival) (c : List (constraint Ival)) (s : State (List Ival))
    (h1 : v.lo ≤ -1) (h2 : 1 ≤ v.hi) :
    Compare ivalCollab (.leaf v) 0 c "<" s =
      (some (some (.node (s.allocated + 2) (listAddCond s.mgr v).1 ZERO ONE)),
        { mgr := (listAddCond s.mgr v).2, allocated := s.allocated + 1 }) := by
  have hlt : eps20 < 1 := by unfold eps20; norm_num
  have hpos := eps20_pos
  have hb : ivalCollab.solve_lp v c = some ⟨v.lo, v.hi⟩ := by
    have : v.lo ≤ v.hi := by linarith
    simp [ivalCollab, this]
  have hnb : ¬ below ⟨v.lo, v.hi⟩ 0 := by
    rw [below_iff]
    intro h
    have h3 : v.hi ≤ 0 - eps20 := h
    linarith
  have hna : ¬ atOrAbove ⟨v.lo, v.hi⟩ 0 := by
    rw [atOrAbove_iff]
    intro h
    have h3 : 0 - eps20 < v.lo := h
    linarith
  rw [Compare, CompareLeaf_straddle ivalCollab v 0 c "<" s ⟨v.lo, v.hi⟩ (by decide) hb hnb hna]
  simp [ivalCollab]

/-- The comparison of `sharedLeaf` with `0` under `<`: the shared leaf is
visited on both paths and gets a node each time. -/
theorem Compare_sharedLeaf_lt :
    Compare ivalCollab sharedLeaf.root 0 [] "<" s0 =
      (some (some (.node 6 0 (.node 2 0 ZERO ONE)
          (.node 5 1 (.node 3 0 ZERO ONE) (.node 4 1 ZERO ONE)))),
        { mgr := [⟨-1, 1⟩, ⟨-2, 2⟩], allocated := 5 }) := by
  have hX1 := Compare_wide_range_lt ⟨-1, 1⟩ ([] ++ [{ con := ⟨-1, 1⟩, sign := '+' }]) s0
    (by norm_num) (by norm_num)
  have hX2 := Compare_wide_range_lt ⟨-1, 1⟩
    (setBackSign ([] ++ [{ con := ⟨-1, 1⟩, sign := '+' }]) '-'
      ++ [{ con := ⟨-2, 2⟩, sign := '+' }])
    { mgr := [⟨-1, 1⟩], allocated := 1 } (by norm_num) (by norm_num)
  have hY := Compare_wide_range_lt ⟨-2, 2⟩
    (setBackSign (setBackSign ([] ++ [{ con := ⟨-1, 1⟩, sign := '+' }]) '-'
      ++ [{ con := ⟨-2, 2⟩, sign := '+' }]) '-')
    { mgr := [⟨-1, 1⟩], allocated := 2 } (by norm_num) (by norm_num)
  have e1 : listAddCond ([] : List Ival) ⟨-1, 1⟩ = (0, [⟨-1, 1⟩]) := by decide
  have e2 : listAddCond [⟨-1, 1⟩] ⟨-1, 1⟩ = (0, [⟨-1, 1⟩]) := by decide
  have e3 : listAddCond [⟨-1, 1⟩] ⟨-2, 2⟩ = (1, [⟨-1, 1⟩, ⟨-2, 2⟩]) := by decide
  simp only [s0, e1] at hX1
  simp only [e2] at hX2
  simp only [e3] at hY
  have hInner := Compare_node_ok ivalCollab 1 ⟨-2, 2⟩ (.leaf ⟨-1, 1⟩) (.leaf ⟨-2, 2⟩) 0
    (setBackSign ([] ++ [{ con := ⟨-1, 1⟩, sign := '+' }]) '-') "<" _ _ _ _ _ hX2 hY
  simp only [BDDNode.addr] at hInner
  rw [if_neg (by decide)] at hInner
  have hRoot := Compare_node_ok ivalCollab 0 ⟨-1, 1⟩ (.leaf ⟨-1, 1⟩)
    (.node 1 ⟨-2, 2⟩ (.leaf ⟨-1, 1⟩) (.leaf ⟨-2, 2⟩)) 0 [] "<" s0 _ _ _ _ hX1 hInner
  simp only [BDDNode.addr] at hRoot
  rw [if_neg (by decide)] at hRoot
  exact hRoot

/-- With nodes counted once each, the bound fails on a diagram with a shared
leaf: `sharedLeaf` has two distinct leaves and two internal nodes, and the
diagram `Compare` returns for it has five internal nodes. -/
theorem C14_shared_leaf_counterexample :
    Compare ivalCollab sharedLeaf.root 0 [] "<" s0 =
      (some (some (.node 6 0 (.node 2 0 ZERO ONE)
          (.node 5 1 (.node 3 0 ZERO ONE) (.node 4 1 ZERO ONE)))),
        { mgr := [⟨-1, 1⟩, ⟨-2, 2⟩], allocated := 5 }) ∧
    sharedLeaf.root.distinctLeafCount = 2 ∧
    sharedLeaf.root.distinctInternalCount = 2 ∧
    ¬ ((BDDNode.node 6 0 (.node 2 0 ZERO ONE)
          (.node 5 1 (.node 3 0 ZERO ONE) (.node 4 1 ZERO ONE))).internalCount
        ≤ sharedLeaf.root.distinctLeafCount + sharedLeaf.root.distinctInternalCount) :=
  ⟨Compare_sharedLeaf_lt, by decide, by decide, by decide⟩

/-- Two branch results are the same object only when both are the same
canonical terminal: whatever the false branch allocates is newer than every
node of the true branch. -/
theorem branch_addr_eq {Mgr : Type} (s s1 s2 : State Mgr) (nT nF : BDDNode)
    (hT : CompareInv s (some (some nT), s1)) (hF : CompareInv s1 (some (some nF), s2))
    (h : nT.addr = nF.addr) :
    (nT = ONE ∧ nF = ONE) ∨ (nT = ZERO ∧ nF = ZERO) := by
  obtain ⟨hTp, _, _⟩ := hT.2.2 nT rfl
  obtain ⟨hFp, _, hFa⟩ := hF.2.2 nF rfl
  simp only at hTp hFp hFa
  cases nT with
  | leaf x v =>
    cases nF with
    | leaf y w =>
      simp only [BDDNode.addr] at h
      subst h
      rcases hTp with ⟨rfl, rfl⟩ | ⟨rfl, rfl⟩ <;> rcases hFp with ⟨h1, rfl⟩ | ⟨h1, rfl⟩
      · exact Or.inr ⟨rfl, rfl⟩
      · exact absurd h1 (by decide)
      · exact absurd h1 (by decide)
      · exact Or.inl ⟨rfl, rfl⟩
    | node y j A B =>
      exfalso
      have hy : 2 ≤ y := hFp.1
      simp only [BDDNode.addr] at h
      rcases hTp with ⟨rfl, _⟩ | ⟨rfl, _⟩ <;> omega
  | node x i A B =>
    exfalso
    have hx1 : 2 ≤ x := hTp.1
    have hx2 : x < s1.allocated + 2 := hTp.2.1
    simp only [BDDNode.addr] at h hFa
    omega

/-- C15: the reduction is by identity only.  At an internal node whose two
branches return nodes, the two results are the same object exactly when both
are the same canonical terminal; in that case `Compare` returns it, and in
every other case (two separately constructed nodes included, however alike)
`Compare` allocates a node over the two results. -/
theorem C15_identity_only {AAF Mgr : Type} (X : Collab AAF Mgr) (i : Nat) (cond : AAF)
    (T F : AADDNode AAF) (t : ℚ) (c : List (constraint AAF)) (op : String)
    (s s1 s2 : State Mgr) (nT nF : BDDNode)
    (hT : Compare X T t (c ++ [{ con := cond, sign := '+' }]) op s = (some (some nT), s1))
    (hF : Compare X F t (setBackSign (c ++ [{ con := cond, sign := '+' }]) '-') op s1
      = (some (some nF), s2)) :
    (nT.addr = nF.addr ↔ ((nT = ONE ∧ nF = ONE) ∨ (nT = ZERO ∧ nF = ZERO))) ∧
    (((nT = ONE ∧ nF = ONE) ∨ (nT = ZERO ∧ nF = ZERO)) →
      Compare X (.node i cond T F) t c op s = (some (some nT), s2)) ∧
    (¬ ((nT = ONE ∧ nF = ONE) ∨ (nT = ZERO ∧ nF = ZERO)) →
      Compare X (.node i cond T F) t c op s =
        (some (some (.node (s2.allocated + 2) i nT nF)),
          { mgr := s2.mgr, allocated := s2.allocated + 1 })) := by
  have hTi := Compare_inv X t op T (c ++ [{ con := cond, sign := '+' }]) s
  have hFi := Compare_inv X t op F (setBackSign (c ++ [{ con := cond, sign := '+' }]) '-') s1
  rw [hT] at hTi
  rw [hF] at hFi
  have hiff : nT.addr = nF.addr ↔ ((nT = ONE ∧ nF = ONE) ∨ (nT = ZERO ∧ nF = ZERO)) := by
    constructor
    · exact branch_addr_eq s s1 s2 nT nF hTi hFi
    · rintro (⟨h1, h2⟩ | ⟨h1, h2⟩) <;> rw [h1, h2]
  refine ⟨hiff, ?_, ?_⟩
  · intro h
    rw [Compare_node_ok X i cond T F t c op s s1 s2 nT nF hT hF, if_pos (hiff.mpr h)]
  · intro h
    rw [Compare_node_ok X i cond T F t c op s s1 s2 nT nF hT hF,
      if_neg (fun h1 => h (hiff.mp h1))]

/-- The leaf `[-1, 1]` compared with `0` under `<` in a state where its
residual condition may or may not be registered already. -/
theorem Compare_unit_range_lt (c : List (constraint Ival)) (s : State (List Ival)) :
    Compare ivalCollab (.leaf ⟨-1, 1⟩) 0 c "<" s =
      (some (some (.node (s.allocated + 2) (listAddCond s.mgr ⟨-1, 1⟩).1 ZERO ONE)),
        { mgr := (listAddCond s.mgr ⟨-1, 1⟩).2, allocated := s.allocated + 1 }) := by
  rw [Compare, CompareLeaf_straddle ivalCollab _ 0 c "<" s ⟨-1, 1⟩ (by decide)
    (by simp [ivalCollab]) (by unfold below; norm_num)
    (by unfold atOrAbove fabs eps20; norm_num)]
  simp [ivalCollab]

/-- Two leaves with the same undetermined value give two distinct nodes of
the same structure (same registry index `0`, same terminal children), which
are kept apart under a third node. -/
theorem C15_identity_only_witness :
    Compare ivalCollab sameLeaves.root 0 [] "<" s0 =
      (some (some (.node 4 0 (.node 2 0 ZERO ONE) (.node 3 0 ZERO ONE))),
        { mgr := [⟨-1, 1⟩], allocated := 3 }) ∧
    (BDDNode.node 2 0 ZERO ONE).shape = (BDDNode.node 3 0 ZERO ONE).shape ∧
    (BDDNode.node 2 0 ZERO ONE).addr ≠ (BDDNode.node 3 0 ZERO ONE).addr := by
  refine ⟨?_, by decide, by decide⟩
  have hT : Compare ivalCollab (.leaf ⟨-1, 1⟩) 0 ([] ++ [{ con := ⟨-1, 1⟩, sign := '+' }]) "<" s0
      = (some (some (.node 2 0 ZERO ONE)), { mgr := [⟨-1, 1⟩], allocated := 1 }) := by
    rw [Compare_unit_range_lt]
    simp [listAddCond, s0]
  have hF : Compare ivalCollab (.leaf ⟨-1, 1⟩) 0
      (setBackSign ([] ++ [{ con := ⟨-1, 1⟩, sign := '+' }]) '-') "<"
      { mgr := [⟨-1, 1⟩], allocated := 1 }
      = (some (some (.node 3 0 ZERO ONE)), { mgr := [⟨-1, 1⟩], allocated := 2 }) := by
    rw [Compare_unit_range_lt]
    simp [listAddCond]
  exact (C15_identity_only ivalCollab 0 ⟨-1, 1⟩ _ _ 0 [] "<" s0 _ _ _ _ hT hF).2.2
    (by decide)

theorem registered_node {AAF Mgr : Type} (X : Collab AAF Mgr) (i : Nat) (cond : AAF)
    (T F : AADDNode AAF) (t : ℚ) (c : List (constraint AAF)) :
    registered X (.node i cond T F) t c =
      registered X T t (c ++ [{ con := cond, sign := '+' }]) ++
        registered X F t (setBackSign (c ++ [{ con := cond, sign := '+' }]) '-') := by
  simp only [registered, leafCalls, List.filter_append, List.map_append]

/-- The condition manager after a call of `Compare` in which every solver
call delivers bounds: the residual conditions of the straddling leaves have
been registered one after the other, and nothing else. -/
theorem Compare_mgr {AAF Mgr : Type} (X : Collab AAF Mgr) (t : ℚ) (op : String)
    (hop : op ≠ "==") (f : AADDNode AAF) :
    ∀ (c : List (constraint AAF)) (s : State Mgr),
      (∀ p ∈ leafCalls f c, X.solve_lp p.1 p.2 ≠ none) →
      (Compare X f t c op s).2.mgr =
        (registered X f t c).foldl (fun m cond => (X.addCond m cond).2) s.mgr := by
  induction f with
  | leaf v =>
    intro c s h
    have hv : X.solve_lp v c ≠ none := h (v, c) (by simp [leafCalls])
    rw [Compare]
    cases hb : X.solve_lp v c with
    | none => exact absurd hb hv
    | some bounds =>
      by_cases h1 : below bounds t
      · rw [CompareLeaf_below X v t c op s bounds hop hb h1]
        simp [registered, leafCalls, straddles, hb, h1]
      · by_cases h2 : atOrAbove bounds t
        · rw [CompareLeaf_atOrAbove X v t c op s bounds hop hb h1 h2]
          simp [registered, leafCalls, straddles, hb, h2]
        · rw [CompareLeaf_straddle X v t c op s bounds hop hb h1 h2]
          simp [registered, leafCalls, straddles, hb, h1, h2]
  | node i cond T F ihT ihF =>
    intro c s h
    have hallT : ∀ p ∈ leafCalls T (c ++ [{ con := cond, sign := '+' }]),
        X.solve_lp p.1 p.2 ≠ none :=
      fun p hp => h p (by simp only [leafCalls, List.mem_append]; exact Or.inl hp)
    have hallF : ∀ p ∈ leafCalls F (setBackSign (c ++ [{ con := cond, sign := '+' }]) '-'),
        X.solve_lp p.1 p.2 ≠ none :=
      fun p hp => h p (by simp only [leafCalls, List.mem_append]; exact Or.inr hp)
    obtain ⟨nT, s1, hT⟩ := Compare_total X t op T _ s hallT
    obtain ⟨nF, s2, hF⟩ := Compare_total X t op F _ s1 hallF
    have h1 := ihT _ s hallT
    have h2 := ihF _ s1 hallF
    rw [hT] at h1
    rw [hF] at h2
    simp only at h1 h2
    rw [Compare_node_ok X i cond T F t c op s s1 s2 nT nF hT hF, registered_node,
      List.foldl_append, ← h1, ← h2]
    split_ifs <;> rfl

/-- C11: determined comparisons leave the condition registry unchanged.  For a
tag among `<=`, `<`, `>=`, `>` and a call in which every leaf gets bounds,
the registry after `Compare` is the registry before with `leafValue -
threshold` registered once per visit of a leaf whose bounds straddle the
threshold, in visiting order, and nothing else; when no leaf straddles, the
registry after the call is the registry before it. -/
theorem C11_registry_frame {AAF Mgr : Type} (X : Collab AAF Mgr) (f : AADDNode AAF) (t : ℚ)
    (c : List (constraint AAF)) (op : String) (s : State Mgr)
    (hop : op = "<=" ∨ op = "<" ∨ op = ">=" ∨ op = ">")
    (hall : ∀ p ∈ leafCalls f c, X.solve_lp p.1 p.2 ≠ none) :
    (Compare X f t c op s).2.mgr =
      (((leafCalls f c).filter (straddles X t)).map
        (fun p => X.sub p.1 (X.ofDouble t))).foldl (fun m cond => (X.addCond m cond).2) s.mgr ∧
    ((∀ p ∈ leafCalls f c, straddles X t p = false) → (Compare X f t c op s).2.mgr = s.mgr) := by
  have hne : op ≠ "==" := by
    rcases hop with h | h | h | h <;> subst h <;> decide
  have key := Compare_mgr X t op hne f c s hall
  refine ⟨key, ?_⟩
  intro hdet
  rw [key]
  have hnil : (leafCalls f c).filter (straddles X t) = [] := by
    rw [List.filter_eq_nil_iff]
    intro p hp
    rw [hdet p hp]
    decide
  simp only [registered, hnil, List.map_nil, List.foldl_nil]

/-- Scenario 3, the returned diagram: the canonical true terminal, in the
unchanged state. -/
theorem lt_range_below :
    AADD.operator_lt ivalCollab (range (-1) 1) (scalar 2) s0 = (some ⟨some ONE⟩, s0) := by
  unfold AADD.operator_lt
  simp only [ivalCollab, range, scalar, ivalMinus, ivalMinusLeaf]
  rw [Compare, CompareLeaf_below _ _ 0 [] "<" s0 ⟨-1 - 2, 1 - 2⟩ (by decide)
    (by norm_num) (by unfold below fabs eps20; norm_num)]
  simp [wrapRoot]

/-- Scenario 3 of the specification: a range `[-1, 1]` compared `<` with the
scalar `2` gives the canonical true terminal and registers nothing. -/
theorem C11_registry_frame_witness :
    AADD.operator_lt ivalCollab (range (-1) 1) (scalar 2) s0 = (some ⟨some ONE⟩, s0) ∧
    (Compare ivalCollab (ivalCollab.minus (range (-1) 1) (scalar 2)).root 0 [] "<" s0).2.mgr
      = s0.mgr :=
  ⟨lt_range_below, (C11_registry_frame ivalCollab (ivalCollab.minus (range (-1) 1) (scalar 2)).root 0 [] "<" s0
    (by decide)
    (by
      intro p hp
      simp only [ivalCollab, range, scalar, ivalMinus, ivalMinusLeaf, leafCalls,
        List.mem_singleton] at hp
      subst hp
      simp only [ivalCollab]
      norm_num
      simp)).2
    (by
      intro p hp
      simp only [ivalCollab, range, scalar, ivalMinus, ivalMinusLeaf, leafCalls,
        List.mem_singleton] at hp
      subst hp
      simp only [straddles, ivalCollab]
      norm_num [below, atOrAbove, fabs, eps20])⟩

/-- Switching the sign of the constraint just pushed. -/
theorem setBackSign_snoc {AAF : Type} (c : List (constraint AAF)) (x : constraint AAF)
    (sg : Char) : setBackSign (c ++ [x]) sg = c ++ [{ x with sign := sg }] := by
  induction c with
  | nil => rfl
  | cons a rest ih =>
    cases rest with
    | nil => rfl
    | cons b rest2 =>
      have h : (a :: b :: rest2) ++ [x] = a :: b :: (rest2 ++ [x]) := rfl
      rw [h, setBackSign]
      have h2 : b :: (rest2 ++ [x]) = (b :: rest2) ++ [x] := rfl
      rw [h2, ih]
      rfl

/-- The solver calls of `Compare` are the ones the specification describes. -/
theorem leafCalls_eq_pathCalls {AAF : Type} (f : AADDNode AAF) :
    ∀ c : List (constraint AAF), leafCalls f c = pathCalls f c := by
  induction f with
  | leaf v => intro c; rfl
  | node i cond T F ihT ihF =>
    intro c
    simp only [leafCalls, pathCalls, setBackSign_snoc, ihT, ihF]

/-- The constraint sequence of each solver call is as long as the caller's
sequence plus the depth of the leaf. -/
theorem pathCalls_length {AAF : Type} (f : AADDNode AAF) :
    ∀ c : List (constraint AAF),
      (pathCalls f c).map (fun p => p.2.length) = (leafDepths f).map (fun d => c.length + d) := by
  induction f with
  | leaf v => intro c; rfl
  | node i cond T F ihT ihF =>
    intro c
    simp only [pathCalls, leafDepths, List.map_append, ihT, ihF, List.map_map,
      List.length_append, List.length_singleton]
    congr 1 <;> apply List.map_congr_left <;> intro d _ <;> simp only [Function.comp] <;> omega

/-- The constraint sequence of each solver call starts with the caller's sequence. -/
theorem pathCalls_extends {AAF : Type} (f : AADDNode AAF) :
    ∀ (c : List (constraint AAF)) (p : AAF × List (constraint AAF)),
      p ∈ pathCalls f c → c <+: p.2 := by
  induction f with
  | leaf v =>
    intro c p hp
    simp only [pathCalls, List.mem_singleton] at hp
    subst hp
    exact List.prefix_refl c
  | node i cond T F ihT ihF =>
    intro c p hp
    simp only [pathCalls, List.mem_append] at hp
    rcases hp with hp | hp
    · exact List.IsPrefix.trans (List.prefix_append c _) (ihT _ p hp)
    · exact List.IsPrefix.trans (List.prefix_append c _) (ihF _ p hp)

/-- `Compare` consults the solver only on its leaf calls: a solver that
answers alike on these gives the same result. -/
theorem Compare_solver_ext {AAF Mgr : Type} (X : Collab AAF Mgr)
    (g : AAF → List (constraint AAF) → Option opt_sol) (t : ℚ) (op : String)
    (f : AADDNode AAF) :
    ∀ (c : List (constraint AAF)) (s : State Mgr),
      (∀ p ∈ leafCalls f c, g p.1 p.2 = X.solve_lp p.1 p.2) →
      Compare { X with solve_lp := g } f t c op s = Compare X f t c op s := by
  induction f with
  | leaf v =>
    intro c s h
    have hv : g v c = X.solve_lp v c := h (v, c) (by simp [leafCalls])
    rw [Compare, Compare]
    unfold CompareLeaf
    simp only [hv]
  | node i cond T F ihT ihF =>
    intro c s h
    have hT := fun s1 => ihT (c ++ [{ con := cond, sign := '+' }]) s1
      (fun p hp => h p (by simp only [leafCalls, List.mem_append]; exact Or.inl hp))
    have hF := fun s1 => ihF (setBackSign (c ++ [{ con := cond, sign := '+' }]) '-') s1
      (fun p hp => h p (by simp only [leafCalls, List.mem_append]; exact Or.inr hp))
    rw [Compare, Compare]
    simp only [hT, hF]

/-- When `Compare` returns the terminal that stands for "below the
threshold", every solver call of the diagram returned bounds that pass the
first bound test. -/
theorem Compare_terminal_below {AAF Mgr : Type} (X : Collab AAF Mgr) (t : ℚ) (op : String)
    (hop : op ≠ "==") (f : AADDNode AAF) :
    ∀ (c : List (constraint AAF)) (s s1 : State Mgr),
      Compare X f t c op s = (some (some (if op = "<=" ∨ op = "<" then ONE else ZERO)), s1) →
      ∀ p ∈ leafCalls f c, ∃ b, X.solve_lp p.1 p.2 = some b ∧ below b t := by
  induction f with
  | leaf v =>
    intro c s s1 h p hp
    simp only [leafCalls, List.mem_singleton] at hp
    subst hp
    rw [Compare] at h
    cases hb : X.solve_lp v c with
    | none =>
      rw [CompareLeaf_fail X v t c op s hop hb] at h
      simp at h
    | some bounds =>
      by_cases h1 : below bounds t
      · exact ⟨bounds, rfl, h1⟩
      · exfalso
        by_cases h2 : atOrAbove bounds t
        · rw [CompareLeaf_atOrAbove X v t c op s bounds hop hb h1 h2] at h
          split_ifs at h <;> simp [ONE, ZERO] at h
        · rw [CompareLeaf_straddle X v t c op s bounds hop hb h1 h2] at h
          split_ifs at h <;> simp [ONE, ZERO] at h
  | node i cond T F ihT ihF =>
    intro c s s1 h p hp
    simp only [leafCalls, List.mem_append] at hp
    have hTi := Compare_inv X t op T (c ++ [{ con := cond, sign := '+' }]) s
    rcases hrT : Compare X T t (c ++ [{ con := cond, sign := '+' }]) op s with ⟨rT, sa⟩
    rw [hrT] at hTi
    rcases rT with _ | _ | nT
    · rw [Compare_node_failT X i cond T F t c op s sa hrT] at h
      simp at h
    · exact absurd rfl hTi.2.1
    · have hFi := Compare_inv X t op F (setBackSign (c ++ [{ con := cond, sign := '+' }]) '-') sa
      rcases hrF : Compare X F t (setBackSign (c ++ [{ con := cond, sign := '+' }]) '-') op sa
        with ⟨rF, sb⟩
      rw [hrF] at hFi
      rcases rF with _ | _ | nF
      · rw [Compare_node_failF X i cond T F t c op s sa sb nT hrT hrF] at h
        simp at h
      · exact absurd rfl hFi.2.1
      · rw [Compare_node_ok X i cond T F t c op s sa sb nT nF hrT hrF] at h
        by_cases heq : nT.addr = nF.addr
        · rw [if_pos heq] at h
          simp only [Prod.mk.injEq, Option.some.injEq] at h
          have hsame : nT = nF := by
            rcases branch_addr_eq s sa sb nT nF hTi hFi heq with ⟨e1, e2⟩ | ⟨e1, e2⟩ <;>
              rw [e1, e2]
          have hT2 : Compare X T t (c ++ [{ con := cond, sign := '+' }]) op s =
              (some (some (if op = "<=" ∨ op = "<" then ONE else ZERO)), sa) := by
            rw [hrT, h.1]
          have hF2 : Compare X F t (setBackSign (c ++ [{ con := cond, sign := '+' }]) '-')
              op sa = (some (some (if op = "<=" ∨ op = "<" then ONE else ZERO)), sb) := by
            rw [hrF, ← hsame, h.1]
          rcases hp with hp | hp
          · exact ihT _ s sa hT2 p hp
          · exact ihF _ sa sb hF2 p hp
        · exfalso
          rw [if_neg heq] at h
          simp only [Prod.mk.injEq, Option.some.injEq] at h
          have h1 := h.1
          split_ifs at h1 <;> simp [ONE, ZERO] at h1

/-- Every leaf call of the diagram is really made: against a solver that
answers "below the threshold" everywhere, changing the answer at one leaf
call alone changes the result of `Compare`. -/
theorem Compare_solver_sensitive {AAF Mgr : Type} [DecidableEq AAF] (X : Collab AAF Mgr)
    (t : ℚ) (op : String) (hop : op ≠ "==") (f : AADDNode AAF) (c : List (constraint AAF))
    (s : State Mgr) (p : AAF × List (constraint AAF)) (hp : p ∈ leafCalls f c) :
    Compare { X with solve_lp := fun v cs =>
        if (v, cs) = p then some ⟨t + 1, t + 1⟩ else some ⟨t - 1, t - 1⟩ } f t c op s ≠
      Compare { X with solve_lp := fun _ _ => some ⟨t - 1, t - 1⟩ } f t c op s := by
  have hlow : below ⟨t - 1, t - 1⟩ t := by
    rw [below_iff]
    have := eps20_lt_eps10
    have h10 : eps10 < 1 := by unfold eps10; norm_num
    show t - 1 ≤ t - eps20
    linarith
  have h0 : Compare { X with solve_lp := fun _ _ => some ⟨t - 1, t - 1⟩ } f t c op s =
      (some (some (if op = "<=" ∨ op = "<" then ONE else ZERO)), s) := by
    apply Compare_const
    intro q _ s1
    exact CompareLeaf_below _ q.1 t q.2 op s1 ⟨t - 1, t - 1⟩ hop rfl hlow
  rw [h0]
  intro h1
  obtain ⟨b, hb, hbel⟩ := Compare_terminal_below _ t op hop f c s s h1 p hp
  simp only [if_true, Option.some.injEq] at hb
  rw [← hb, below_iff] at hbel
  have := eps20_pos
  have h2 : t + 1 ≤ t - eps20 := hbel
  linarith

/-- C13: path constraints seen by the bound solver.  The solver calls of
`Compare` on a diagram `f` with initial constraints `c` are, leaf by leaf,
the leaf value with `c` followed in root-to-leaf order by one pair
`(cond, sign)` per internal node of the path, `+` through a true child and `-`
through a false child; each sequence extends `c` and has length `|c|` plus the
depth of the leaf.  These are the arguments `Compare` passes to the solver: a
solver that answers alike on them gives the same result, so nothing else is
passed, and for a tag other than `"=="` each of them is passed, as changing
the solver's answer on that one argument alone changes the result.  The four
order operators start from the empty sequence. -/
theorem C13_path_constraints {AAF Mgr : Type} [DecidableEq AAF] (X : Collab AAF Mgr)
    (f : AADDNode AAF) (t : ℚ) (c : List (constraint AAF)) (op : String) (s : State Mgr)
    (a b : AADD AAF) :
    leafCalls f c = pathCalls f c ∧
    (∀ p ∈ pathCalls f c, c <+: p.2) ∧
    (pathCalls f c).map (fun p => p.2.length) = (leafDepths f).map (fun d => c.length + d) ∧
    (∀ g : AAF → List (constraint AAF) → Option opt_sol,
      (∀ p ∈ pathCalls f c, g p.1 p.2 = X.solve_lp p.1 p.2) →
      Compare { X with solve_lp := g } f t c op s = Compare X f t c op s) ∧
    (op ≠ "==" → ∀ p ∈ pathCalls f c,
      Compare { X with solve_lp := fun v cs =>
          if (v, cs) = p then some ⟨t + 1, t + 1⟩ else some ⟨t - 1, t - 1⟩ } f t c op s ≠
        Compare { X with solve_lp := fun _ _ => some ⟨t - 1, t - 1⟩ } f t c op s) ∧
    AADD.operator_le X a b s = wrapRoot (Compare X (X.minus a b).root (0 + eps10) [] "<=" s) ∧
    AADD.operator_lt X a b s = wrapRoot (Compare X (X.minus a b).root 0 [] "<" s) ∧
    AADD.operator_ge X a b s = wrapRoot (Compare X (X.minus a b).root 0 [] ">=" s) ∧
    AADD.operator_gt X a b s = wrapRoot (Compare X (X.minus a b).root (0 + eps10) [] ">" s) := by
  refine ⟨leafCalls_eq_pathCalls f c, pathCalls_extends f c, pathCalls_length f c, ?_, ?_,
    rfl, rfl, rfl, rfl⟩
  · intro g hg
    apply Compare_solver_ext
    rw [leafCalls_eq_pathCalls]
    exact hg
  · intro hop p hp
    rw [← leafCalls_eq_pathCalls] at hp
    exact Compare_solver_sensitive X t op hop f c s p hp

/-- On `mixedBranches` every solver call carries one constraint, so a solver
that gives up on longer sequences gives the same comparison; and the call for
the scalar leaf, with the root condition negated, is really made. -/
theorem C13_path_constraints_witness :
    Compare { ivalCollab with solve_lp := shallowSolve } mixedBranches.root 0 [] "<" s0
      = Compare ivalCollab mixedBranches.root 0 [] "<" s0 ∧
    Compare
      { ivalCollab with
        solve_lp := fun v cs =>
          if (v, cs) = (⟨2, 2⟩, [{ con := ⟨-1, 1⟩, sign := '-' }]) then some ⟨0 + 1, 0 + 1⟩
          else some ⟨0 - 1, 0 - 1⟩ }
      mixedBranches.root 0 [] "<" s0 ≠
      Compare { ivalCollab with solve_lp := fun _ _ => some ⟨0 - 1, 0 - 1⟩ }
        mixedBranches.root 0 [] "<" s0 :=
  ⟨(C13_path_constraints ivalCollab mixedBranches.root 0 [] "<" s0 mixedBranches
      (scalar 0)).2.2.2.1 shallowSolve
      (by
        intro p hp
        simp only [mixedBranches, pathCalls, List.mem_append, List.mem_singleton] at hp
        rcases hp with hp | hp <;> subst hp <;> simp [shallowSolve]),
    (C13_path_constraints ivalCollab mixedBranches.root 0 [] "<" s0 mixedBranches
      (scalar 0)).2.2.2.2.1 (by decide) (⟨2, 2⟩, [{ con := ⟨-1, 1⟩, sign := '-' }])
      (by simp [mixedBranches, pathCalls])⟩

end AADDRel
